import Mathlib

/-!
Shallow embedding of the alox-bytecode compiler and virtual machine
(src/opcodes.rs, src/value.rs, src/object.rs, src/interner.rs, src/chunk.rs,
src/parser.rs, src/vm.rs), together with theorems settling the claims about
its specification.

Conventions of the embedding:
* Rust `u8` bytes are `Nat` values; casts write an explicit `% 256`
  (resp. `% 2^32` for `u32`) where the source truncates.
* Rust panics (`expect`, `unwrap`, `unreachable!`, out-of-bounds indexing)
  are `Option.none` outcomes, or the `RunRes.fatal` outcome inside the VM.
* Rust `f64` is abstracted: every definition that touches numbers is generic
  over a number type `α` together with the operation bundle `NumOps` that the
  VM uses (IEEE floating point itself is not modelled; none of the claims
  depend on rounding).  Concrete evaluations instantiate `α := Int`.
* `Vec` and `AHashMap` become `List` and association lists with the same
  lookup/insert semantics.
-/

namespace Alox

/-- Bytecode operation tags, from `src/opcodes.rs` (`enum Op`, values 0–21). -/
inductive Op
  | Return
  | Constant
  | ConstantLong
  | Nil
  | True
  | False
  | Pop
  | GetLocal
  | SetLocal
  | GetGlobal
  | DefineGlobal
  | SetGlobal
  | Equal
  | Greater
  | Less
  | Add
  | Subtract
  | Multiply
  | Divide
  | Not
  | Negate
  | Print
deriving DecidableEq, Repr

/-- `Op::u8` from `src/opcodes.rs`: the discriminant of the opcode. -/
def Op.u8 : Op → Nat
  | .Return => 0
  | .Constant => 1
  | .ConstantLong => 2
  | .Nil => 3
  | .True => 4
  | .False => 5
  | .Pop => 6
  | .GetLocal => 7
  | .SetLocal => 8
  | .GetGlobal => 9
  | .DefineGlobal => 10
  | .SetGlobal => 11
  | .Equal => 12
  | .Greater => 13
  | .Less => 14
  | .Add => 15
  | .Subtract => 16
  | .Multiply => 17
  | .Divide => 18
  | .Not => 19
  | .Negate => 20
  | .Print => 21

/-- `Op::from_u8` / `TryFrom<u8> for Op` from `src/opcodes.rs`: bytes above
`Op::Print as u8` are invalid (the source's `transmute` guarded by the range
check becomes an explicit total mapping). -/
def Op.from_u8 (b : Nat) : Option Op :=
  match b with
  | 0 => some .Return
  | 1 => some .Constant
  | 2 => some .ConstantLong
  | 3 => some .Nil
  | 4 => some .True
  | 5 => some .False
  | 6 => some .Pop
  | 7 => some .GetLocal
  | 8 => some .SetLocal
  | 9 => some .GetGlobal
  | 10 => some .DefineGlobal
  | 11 => some .SetGlobal
  | 12 => some .Equal
  | 13 => some .Greater
  | 14 => some .Less
  | 15 => some .Add
  | 16 => some .Subtract
  | 17 => some .Multiply
  | 18 => some .Divide
  | 19 => some .Not
  | 20 => some .Negate
  | 21 => some .Print
  | _ => none

/-- `AloxString` from `src/object.rs`: a string value stores only the
interner id (`pub struct AloxString(pub u32)`). -/
structure AloxString where
  id : Nat
deriving DecidableEq, Repr

/-- `Object` from `src/object.rs` (single variant `String(AloxString)`). -/
inductive Object
  | String (s : AloxString)
deriving DecidableEq, Repr

/-- `Value` from `src/value.rs`: tagged union over objects, booleans,
numbers (Rust `f64`, here the abstract number type `α`) and nil. -/
inductive Value (α : Type)
  | Obj (o : Object)
  | Bool (b : Bool)
  | Number (n : α)
  | Nil
deriving DecidableEq, Repr

/-- `Value::from_str_index` from `src/value.rs`. -/
def Value.from_str_index {α : Type} (idx : Nat) : Value α :=
  Value.Obj (Object.String ⟨idx⟩)

/-- The operations the source applies to `f64` numbers, abstracted so the
embedding does not commit to a model of IEEE arithmetic. -/
structure NumOps (α : Type) where
  add : α → α → α
  sub : α → α → α
  mul : α → α → α
  div : α → α → α
  neg : α → α
  gtB : α → α → Bool
  ltB : α → α → Bool
  beq : α → α → Bool
  toStr : α → String

/-- Derived `PartialEq` on `Value` from `src/value.rs`: variant-wise
comparison, numbers through the abstract `beq`, objects by interner id. -/
def valueEq {α : Type} (N : NumOps α) : Value α → Value α → Bool
  | .Obj (.String a), .Obj (.String b) => a.id = b.id
  | .Bool a, .Bool b => a = b
  | .Number a, .Number b => N.beq a b
  | .Nil, .Nil => true
  | _, _ => false

/-- String interner state from `src/interner.rs`: the `AHashMap<&str, u32>`
is an association list with identical lookup semantics, the arena-backed
`Vec<&str>` is a list of the interned texts in insertion order. -/
structure Interner where
  map : List (String × Nat)
  vec : List String
deriving DecidableEq, Repr

/-- Association-list lookup, the semantics of `AHashMap::get`. -/
def lookupA {β : Type} : List (String × β) → String → Option β
  | [], _ => none
  | (k, v) :: r, s => if k = s then some v else lookupA r s

/-- `Interner::new` from `src/interner.rs`. -/
def Interner.new : Interner := ⟨[], []⟩

/-- `Interner::intern` from `src/interner.rs`: return the existing id when
the text is present, otherwise append it and assign `vec.len() as u32`. -/
def Interner.intern (I : Interner) (name : String) : Interner × Nat :=
  match lookupA I.map name with
  | some idx => (I, idx)
  | none =>
    let idx := I.vec.length % 4294967296
    (⟨(name, idx) :: I.map, I.vec ++ [name]⟩, idx)

/-- `Interner::exists` from `src/interner.rs`. -/
def Interner.existsText (I : Interner) (s : String) : Bool :=
  (lookupA I.map s).isSome

/-- `Interner::get_existing` from `src/interner.rs`; `none` is the
`expect` panic when the text was never interned. -/
def Interner.get_existing (I : Interner) (s : String) : Option Nat :=
  lookupA I.map s

/-- `Interner::lookup` from `src/interner.rs`; `none` is the indexing
panic for an id no `intern` produced. -/
def Interner.lookup (I : Interner) (idx : Nat) : Option String :=
  I.vec.get? idx

/-- `Chunk` from `src/chunk.rs`: byte code, constant pool and per-byte line
table. -/
structure Chunk (α : Type) where
  code : List Nat
  constants : List (Value α)
  lines : List Nat
deriving DecidableEq, Repr

/-- `Chunk::init` from `src/chunk.rs`. -/
def Chunk.init {α : Type} : Chunk α := ⟨[], [], []⟩

/-- `Chunk::write` from `src/chunk.rs`: push the line, push the byte. -/
def Chunk.write {α : Type} (c : Chunk α) (byte line : Nat) : Chunk α :=
  { c with lines := c.lines ++ [line], code := c.code ++ [byte] }

/-- `Chunk::add_constant` from `src/chunk.rs`: append and return the new
entry's index (`constants.len() - 1` after the push). -/
def Chunk.add_constant {α : Type} (c : Chunk α) (v : Value α) : Chunk α × Nat :=
  ({ c with constants := c.constants ++ [v] }, c.constants.length)

/-- First three bytes of `usize::to_le_bytes`, as taken by
`Chunk::write_constant`'s `split_at(3)`. -/
def leBytes3 (n : Nat) : List Nat :=
  [n % 256, n / 256 % 256, n / 65536 % 256]

/-- `Chunk::write_constant` from `src/chunk.rs`.  Note the unconditional
`self.lines.push(line)` before any byte is written, then the short
(`Op::Constant`) form for pool indices below 256, the long
(`Op::ConstantLong`, little-endian 3-byte) form below `2^24`, and the
`panic!` (here `none`) beyond. -/
def Chunk.write_constant {α : Type} (c : Chunk α) (v : Value α) (line : Nat) :
    Option (Chunk α) :=
  let c1 : Chunk α := { c with lines := c.lines ++ [line] }
  let p := c1.add_constant v
  let constant := p.2
  if constant < 256 then
    some ((p.1.write (Op.u8 .Constant) line).write (constant % 256) line)
  else if constant < 16777216 then
    some ((leBytes3 constant).foldl (fun ch b => ch.write b line)
      (p.1.write (Op.u8 .ConstantLong) line))
  else
    none

/-- Result of running the VM: `Ok(())`, a `RuntimeError` with its message, a
Rust panic (`fatal`), or exhaustion of the step fuel (`noFuel`, which the
source's unbounded loop never produces). -/
inductive RunRes
  | ok
  | err (msg : String)
  | fatal
  | noFuel
deriving DecidableEq, Repr

/-- `Vm` state from `src/vm.rs`: the owned chunk (flattened into its three
fields), instruction pointer, operand stack (top = head), interner, globals
table, plus the list of lines printed by `Op::Print` (the stdout channel). -/
structure VmState (α : Type) where
  code : List Nat
  constants : List (Value α)
  lines : List Nat
  ip : Nat
  stack : List (Value α)
  interner : Interner
  globals : List (String × Value α)
  output : List String
deriving DecidableEq, Repr

/-- One dispatch iteration either continues with a new state or halts. -/
inductive StepRes (α : Type)
  | cont (st : VmState α)
  | halt (st : VmState α) (r : RunRes)
deriving DecidableEq, Repr

/-- `Vm::is_falsey` from `src/vm.rs`: exactly `Nil` and `Bool(false)`. -/
def isFalsey {α : Type} : Value α → Bool
  | .Nil => true
  | .Bool b => !b
  | _ => false

/-- `Vm::runtime_error` from `src/vm.rs`: prefix the message with the source
line found in the line table at `ip - 1`; the indexing panic is `fatal`. -/
def rtErr {α : Type} (st : VmState α) (msg : String) : StepRes α :=
  match st.lines.get? (st.ip - 1) with
  | none => .halt st .fatal
  | some l =>
    .halt st (.err ("[line " ++ toString l ++ "] in script" ++ "\n" ++ msg))

/-- `Display for Value` from `src/value.rs`, used by `Vm::print_val` for
non-string values. -/
def displayVal {α : Type} (N : NumOps α) : Value α → String
  | .Bool true => "true"
  | .Bool false => "false"
  | .Number n => N.toStr n
  | .Nil => "Nil"
  | .Obj (.String s) => toString s.id

/-- The `read_string!` macro from `src/vm.rs`: read the operand byte, fetch
the constant at that index, require it to be a string object and resolve its
text through the interner; every `expect`/indexing panic is `none`. -/
def readString {α : Type} (st : VmState α) : Option (String × VmState α) :=
  match st.code.get? st.ip with
  | none => none
  | some idx =>
    let st1 : VmState α := { st with ip := st.ip + 1 }
    match st1.constants.get? idx with
    | none => none
    | some v =>
      match v with
      | .Obj (.String s) =>
        (match st1.interner.lookup s.id with
         | none => none
         | some name => some (name, st1))
      | _ => none

/-- One iteration of `Vm::run`'s dispatch loop from `src/vm.rs`: decode the
opcode byte at `ip` and execute its arm.  `Op::Constant` and
`Op::ConstantLong` share one arm reading a single operand byte, exactly as
in the source. -/
def step {α : Type} (N : NumOps α) (st : VmState α) : StepRes α :=
  match st.code.get? st.ip with
  | none => .halt st .fatal
  | some byte =>
    let st1 : VmState α := { st with ip := st.ip + 1 }
    match Op.from_u8 byte with
    | none => .halt st1 .fatal
    | some op =>
      match op with
      | .Return => .halt st1 .ok
      | .Constant | .ConstantLong =>
        (match st1.code.get? st1.ip with
         | none => .halt st1 .fatal
         | some idx =>
           let st2 : VmState α := { st1 with ip := st1.ip + 1 }
           match st2.constants.get? idx with
           | none => .halt st2 .fatal
           | some v => .cont { st2 with stack := v :: st2.stack })
      | .Negate =>
        (match st1.stack with
         | [] => .halt st1 .fatal
         | v :: rest =>
           match v with
           | .Number n => .cont { st1 with stack := .Number (N.neg n) :: rest }
           | _ => rtErr st1 "Operand must be a number.")
      | .Add =>
        (match st1.stack with
         | b :: a :: rest =>
           (match b, a with
            | .Obj (.String sb), .Obj (.String sa) =>
              (match st1.interner.lookup sa.id with
               | none => .halt st1 .fatal
               | some first =>
                 match st1.interner.lookup sb.id with
                 | none => .halt st1 .fatal
                 | some second =>
                   let p := st1.interner.intern (first ++ second)
                   .cont { st1 with
                           interner := p.1
                           stack := Value.from_str_index p.2 :: rest })
            | .Number nb, .Number na =>
              .cont { st1 with stack := .Number (N.add na nb) :: rest }
            | _, _ => rtErr st1 "Operands must be two numbers.")
         | _ => .halt st1 .fatal)
      | .Subtract =>
        (match st1.stack with
         | b :: a :: rest =>
           (match a, b with
            | .Number n1, .Number n2 =>
              .cont { st1 with stack := .Number (N.sub n1 n2) :: rest }
            | _, _ => rtErr st1 "Operands must be numbers.")
         | _ => .halt st1 .fatal)
      | .Multiply =>
        (match st1.stack with
         | b :: a :: rest =>
           (match a, b with
            | .Number n1, .Number n2 =>
              .cont { st1 with stack := .Number (N.mul n1 n2) :: rest }
            | _, _ => rtErr st1 "Operands must be numbers.")
         | _ => .halt st1 .fatal)
      | .Divide =>
        (match st1.stack with
         | b :: a :: rest =>
           (match a, b with
            | .Number n1, .Number n2 =>
              .cont { st1 with stack := .Number (N.div n1 n2) :: rest }
            | _, _ => rtErr st1 "Operands must be numbers.")
         | _ => .halt st1 .fatal)
      | .Greater =>
        (match st1.stack with
         | b :: a :: rest =>
           (match a, b with
            | .Number n1, .Number n2 =>
              .cont { st1 with stack := .Bool (N.gtB n1 n2) :: rest }
            | _, _ => rtErr st1 "Operands must be numbers.")
         | _ => .halt st1 .fatal)
      | .Less =>
        (match st1.stack with
         | b :: a :: rest =>
           (match a, b with
            | .Number n1, .Number n2 =>
              .cont { st1 with stack := .Bool (N.ltB n1 n2) :: rest }
            | _, _ => rtErr st1 "Operands must be numbers.")
         | _ => .halt st1 .fatal)
      | .Nil => .cont { st1 with stack := Value.Nil :: st1.stack }
      | .True => .cont { st1 with stack := Value.Bool true :: st1.stack }
      | .False => .cont { st1 with stack := Value.Bool false :: st1.stack }
      | .Not =>
        (match st1.stack with
         | [] => .halt st1 .fatal
         | v :: rest => .cont { st1 with stack := .Bool (isFalsey v) :: rest })
      | .Equal =>
        (match st1.stack with
         | b :: a :: rest =>
           .cont { st1 with stack := .Bool (valueEq N a b) :: rest }
         | _ => .halt st1 .fatal)
      | .Print =>
        (match st1.stack with
         | [] => .halt st1 .fatal
         | v :: rest =>
           match v with
           | .Obj (.String s) =>
             (match st1.interner.lookup s.id with
              | none => .halt st1 .fatal
              | some text =>
                .cont { st1 with stack := rest, output := st1.output ++ [text] })
           | other =>
             .cont { st1 with
                     stack := rest
                     output := st1.output ++ [displayVal N other] })
      | .Pop =>
        (match st1.stack with
         | [] => .halt st1 .fatal
         | _ :: rest => .cont { st1 with stack := rest })
      | .DefineGlobal =>
        (match readString st1 with
         | none => .halt st1 .fatal
         | some (name, st2) =>
           match st2.stack with
           | [] => .halt st2 .fatal
           | v :: rest =>
             .cont { st2 with stack := rest, globals := (name, v) :: st2.globals })
      | .GetGlobal =>
        (match readString st1 with
         | none => .halt st1 .fatal
         | some (name, st2) =>
           match lookupA st2.globals name with
           | some v => .cont { st2 with stack := v :: st2.stack }
           | none => .halt st2 (.err ("Undefined variable '" ++ name ++ "'")))
      | .SetGlobal =>
        (match readString st1 with
         | none => .halt st1 .fatal
         | some (name, st2) =>
           if (lookupA st2.globals name).isSome then
             match st2.stack with
             | [] => .halt st2 .fatal
             | v :: _ => .cont { st2 with globals := (name, v) :: st2.globals }
           else .halt st2 (.err ("Undefined variable '" ++ name ++ "'")))
      | .GetLocal =>
        (match st1.code.get? st1.ip with
         | none => .halt st1 .fatal
         | some slot =>
           let st2 : VmState α := { st1 with ip := st1.ip + 1 }
           if slot < st2.stack.length then
             match st2.stack.get? (st2.stack.length - 1 - slot) with
             | some v => .cont { st2 with stack := v :: st2.stack }
             | none => .halt st2 .fatal
           else .halt st2 .fatal)
      | .SetLocal =>
        (match st1.code.get? st1.ip with
         | none => .halt st1 .fatal
         | some slot =>
           let st2 : VmState α := { st1 with ip := st1.ip + 1 }
           match st2.stack with
           | [] => .halt st2 .fatal
           | v :: _ =>
             if slot < st2.stack.length then
               .cont { st2 with
                       stack := st2.stack.set (st2.stack.length - 1 - slot) v }
             else .halt st2 .fatal)

/-- `Vm::run` from `src/vm.rs`: loop while `ip` is in bounds, dispatching one
instruction per iteration.  The explicit fuel only bounds the iteration
count; `runWrap` below always supplies enough. -/
def go {α : Type} (N : NumOps α) : Nat → VmState α → VmState α × RunRes
  | 0, st => (st, .noFuel)
  | f + 1, st =>
    if st.code.length ≤ st.ip then (st, .ok)
    else
      match step N st with
      | .cont st1 => go N f st1
      | .halt st1 r => (st1, r)

/-- `Vm::run` with sufficient fuel: every iteration advances `ip` by at
least one, so `code.length + 1 - ip` iterations always reach a result. -/
def runWrap {α : Type} (N : NumOps α) (st : VmState α) : VmState α × RunRes :=
  go N (st.code.length + 1 - st.ip) st

/-- Instantiation of the abstract number operations at `Int`, used by the
concrete evaluations (the claims settled here do not depend on `f64`
rounding behaviour). -/
def intOps : NumOps Int :=
  { add := fun a b => a + b
    sub := fun a b => a - b
    mul := fun a b => a * b
    div := fun a b => a / b
    neg := fun a => -a
    gtB := fun a b => decide (b < a)
    ltB := fun a b => decide (a < b)
    beq := fun a b => decide (a = b)
    toStr := fun n => toString n }

/-- Token kinds, reconstructed from the exhaustive `TokenKind` matches in
`src/parser.rs` (the scanner/token source files are declared in
`src/lib.rs` but absent from the snapshot). -/
inductive TokenKind
  | LeftParen
  | RightParen
  | LeftBrace
  | RightBrace
  | Comma
  | Dot
  | Minus
  | Plus
  | Semicolon
  | Slash
  | Star
  | Bang
  | BangEqual
  | Equal
  | EqualEqual
  | Greater
  | GreaterEqual
  | Less
  | LessEqual
  | Identifier
  | String
  | Number
  | And
  | Class
  | Else
  | False
  | Fun
  | For
  | If
  | Nil
  | Or
  | Return
  | Super
  | This
  | True
  | Var
  | While
  | Print
  | Eof
  | Error
deriving DecidableEq, Repr

/-- A token as `src/parser.rs` consumes it: kind, lexeme text, source line. -/
structure Token where
  kind : TokenKind
  lexeme : String
  line : Nat
deriving DecidableEq, Repr

/-- `Parser` state from `src/parser.rs`, with the `Scanner` modelled as the
list of tokens not yet consumed and the stderr diagnostics collected in
`errors`. -/
structure PState (α : Type) where
  tokens : List Token
  current : Option Token
  previous : Option Token
  chunk : Chunk α
  interner : Interner
  had_error : Bool
  panic_mode : Bool
  errors : List String
deriving DecidableEq, Repr

/-- The token the modelled scanner yields at end of input. -/
def eofToken : Token := ⟨.Eof, "", 0⟩

/-- Diagnostic text assembled by `Parser::error_at`'s `eprint` calls in
`src/parser.rs`. -/
def renderError (tok : Option Token) (msg : String) : String :=
  match tok with
  | none => "Parser error.\n"
  | some t =>
    let head := "[line " ++ toString t.line ++ "] Error"
    let loc :=
      match t.kind with
      | .Eof => " at end"
      | .Error => ""
      | _ => " at '" ++ t.lexeme ++ "' "
    if msg = "" then head ++ loc ++ "\n"
    else head ++ loc ++ ": " ++ msg ++ "\n"

/-- `Parser::error_at` from `src/parser.rs`: always set `had_error`; when
`panic_mode` is active return before emitting the diagnostic.  (Note: the
source never sets `panic_mode` anywhere.) -/
def error_at {α : Type} (st : PState α) (tok : Option Token) (msg : String) :
    PState α :=
  let st1 : PState α := { st with had_error := true }
  if st1.panic_mode then st1
  else { st1 with errors := st1.errors ++ [renderError tok msg] }

/-- `Parser::error` from `src/parser.rs` (reports at the previous token). -/
def errorPrev {α : Type} (st : PState α) (msg : String) : PState α :=
  error_at st st.previous msg

/-- `Parser::error_at_current` from `src/parser.rs`. -/
def error_at_current {α : Type} (st : PState α) (msg : String) : PState α :=
  error_at st st.current msg

/-- The scan loop inside `Parser::advance`: take the next token, reporting
and skipping `Error` tokens.  Modelled from the spec: the absent Scanner
yields the token list in order and then `Eof` forever. -/
def advLoop {α : Type} : PState α → List Token → PState α
  | st, [] => { st with current := some eofToken, tokens := [] }
  | st, t :: ts =>
    if t.kind = TokenKind.Error then
      advLoop (error_at { st with current := some t, tokens := ts } (some t) "") ts
    else { st with current := some t, tokens := ts }

/-- `Parser::advance` from `src/parser.rs`. -/
def advance {α : Type} (st : PState α) : PState α :=
  advLoop { st with previous := st.current } st.tokens

/-- `Parser::match_current` (via `Parser::check`) from `src/parser.rs`;
`none` is `check`'s `expect` panic when there is no current token. -/
def match_currentF {α : Type} (k : TokenKind) (st : PState α) :
    Option (Bool × PState α) :=
  match st.current with
  | none => none
  | some t => if t.kind = k then some (true, advance st) else some (false, st)

/-- `Parser::consume` from `src/parser.rs`: advance on the expected kind,
otherwise report at the current token. -/
def consumeF {α : Type} (k : TokenKind) (msg : String) (st : PState α) :
    PState α :=
  match st.current with
  | some t => if t.kind = k then advance st else error_at_current st msg
  | none => error_at_current st msg

/-- `Parser::emit_byte` from `src/parser.rs`; `none` is the `unwrap` panic
when there is no previous token to take the line from. -/
def emit_byteF {α : Type} (st : PState α) (b : Nat) : Option (PState α) :=
  match st.previous with
  | none => none
  | some p => some { st with chunk := st.chunk.write b p.line }

/-- `Parser::emit_bytes` from `src/parser.rs`. -/
def emit_bytesF {α : Type} (st : PState α) (b1 b2 : Nat) : Option (PState α) :=
  match emit_byteF st b1 with
  | none => none
  | some st1 => emit_byteF st1 b2

/-- `Parser::make_constant` from `src/parser.rs`: add to the pool, then the
`try_into::<u8>` panics (here `none`) when the index exceeds 255. -/
def make_constantF {α : Type} (st : PState α) (v : Value α) :
    Option (Nat × PState α) :=
  let p := st.chunk.add_constant v
  if p.2 ≤ 255 then some (p.2, { st with chunk := p.1 }) else none

/-- `Parser::emit_constant` from `src/parser.rs`: always the short
`Op::Constant` form. -/
def emit_constantF {α : Type} (st : PState α) (v : Value α) :
    Option (PState α) :=
  match make_constantF st v with
  | none => none
  | some (k, st1) => emit_bytesF st1 (Op.u8 .Constant) k

/-- `Parser::identifier_constant` from `src/parser.rs`: intern the name and
store the string value in the constant pool. -/
def identifier_constantF {α : Type} (st : PState α) (name : String) :
    Option (Nat × PState α) :=
  let p := st.interner.intern name
  make_constantF { st with interner := p.1 } (Value.from_str_index p.2)

/-- `Parser::number` from `src/parser.rs`; `pn` abstracts
`str::parse::<f64>` and `none` is its `unwrap` panic. -/
def numberF {α : Type} (pn : String → Option α) (st : PState α) :
    Option (PState α) :=
  match st.previous with
  | none => none
  | some p =>
    match pn p.lexeme with
    | none => none
    | some v => emit_constantF st (Value.Number v)

/-- The quote-stripping slice `&lexeme[1..len - 1]` in `Parser::string`;
`none` is the slicing panic on a lexeme shorter than the two quotes. -/
def stringStrip (s : String) : Option String :=
  if 2 ≤ s.length then some ((s.drop 1).dropRight 1) else none

/-- `Parser::string` from `src/parser.rs`: reuse an existing interner id
when the text is present, otherwise intern it, then load it as a constant. -/
def stringF {α : Type} (st : PState α) : Option (PState α) :=
  match st.previous with
  | none => none
  | some p =>
    match stringStrip p.lexeme with
    | none => none
    | some s =>
      if st.interner.existsText s then
        match st.interner.get_existing s with
        | none => none
        | some idx => emit_constantF st (Value.from_str_index idx)
      else
        let q := st.interner.intern s
        emit_constantF { st with interner := q.1 } (Value.from_str_index q.2)

/-- `Parser::literal` from `src/parser.rs`; `none` is the `unreachable!`. -/
def literalF {α : Type} (st : PState α) : Option (PState α) :=
  match st.previous with
  | none => none
  | some p =>
    match p.kind with
    | .False => emit_byteF st (Op.u8 .False)
    | .True => emit_byteF st (Op.u8 .True)
    | .Nil => emit_byteF st (Op.u8 .Nil)
    | _ => none

/-- Tags standing for the first-class prefix parse functions stored in the
rule table of `src/parser.rs`. -/
inductive PrefFn
  | groupingP
  | unaryP
  | variableP
  | stringP
  | numberP
  | literalP
deriving DecidableEq, Repr

/-- Tag standing for the single kind of infix parse function in the table. -/
inductive InfFn
  | binaryI
deriving DecidableEq, Repr

/-- `ParseRule` from `src/parser.rs` with the function pointers
defunctionalised; `prec` is the `Precedence` discriminant (None = 0,
Assignment = 1, …, Primary = 10). -/
structure ParseRule where
  pre : Option PrefFn
  inf : Option InfFn
  prec : Nat
deriving DecidableEq, Repr

/-- `Parser::find_rule` from `src/parser.rs`. -/
def find_rule : TokenKind → ParseRule
  | .LeftParen => ⟨some .groupingP, none, 0⟩
  | .Minus => ⟨some .unaryP, some .binaryI, 6⟩
  | .Plus => ⟨none, some .binaryI, 6⟩
  | .Slash => ⟨none, some .binaryI, 7⟩
  | .Star => ⟨none, some .binaryI, 7⟩
  | .Bang => ⟨some .unaryP, none, 0⟩
  | .BangEqual => ⟨none, some .binaryI, 4⟩
  | .EqualEqual => ⟨none, some .binaryI, 4⟩
  | .Greater => ⟨none, some .binaryI, 5⟩
  | .GreaterEqual => ⟨none, some .binaryI, 5⟩
  | .Less => ⟨none, some .binaryI, 5⟩
  | .LessEqual => ⟨none, some .binaryI, 5⟩
  | .Identifier => ⟨some .variableP, none, 0⟩
  | .String => ⟨some .stringP, none, 0⟩
  | .Number => ⟨some .numberP, none, 0⟩
  | .False => ⟨some .literalP, none, 0⟩
  | .Nil => ⟨some .literalP, none, 0⟩
  | .True => ⟨some .literalP, none, 0⟩
  | _ => ⟨none, none, 0⟩

/-- Call tags for the mutually recursive expression-parsing functions of
`src/parser.rs`, so the whole cluster is one fuel-indexed function. -/
inductive ECall
  | exprC
  | precC (p : Nat)
  | loopC (p : Nat) (ca : Bool)
  | binC (ca : Bool)
  | unC (ca : Bool)
  | grpC (ca : Bool)
  | varC (ca : Bool)
  | nvarC (name : String) (ca : Bool)
deriving DecidableEq, Repr

/-- The expression-parsing cluster of `src/parser.rs`
(`expression`, `parse_precedence` with its infix loop, `binary`, `unary`,
`grouping`, `variable`, `named_variable`), fuel-indexed; `none` covers both
fuel exhaustion and the source's panics. -/
def pp {α : Type} (pn : String → Option α) :
    Nat → ECall → PState α → Option (PState α)
  | 0, _, _ => none
  | f + 1, c, st =>
    match c with
    | .exprC => pp pn f (.precC 1) st
    | .precC p =>
      let st1 := advance st
      (match st1.previous with
       | none => none
       | some prev =>
         let ca := decide (p ≤ 1)
         match (find_rule prev.kind).pre with
         | none => some (errorPrev st1 "Expected expression.")
         | some pf =>
           let r1 : Option (PState α) :=
             match pf with
             | .groupingP => pp pn f (.grpC ca) st1
             | .unaryP => pp pn f (.unC ca) st1
             | .variableP => pp pn f (.varC ca) st1
             | .stringP => stringF st1
             | .numberP => numberF pn st1
             | .literalP => literalF st1
           match r1 with
           | none => none
           | some st2 =>
             match pp pn f (.loopC p ca) st2 with
             | none => none
             | some st3 =>
               if ca then
                 match match_currentF .Equal st3 with
                 | none => none
                 | some (b, st4) =>
                   if b then some (errorPrev st4 "Invalid assignment target.")
                   else some st4
               else some st3)
    | .loopC p ca =>
      (match st.current with
       | none => none
       | some cur =>
         if p ≤ (find_rule cur.kind).prec then
           let st1 := advance st
           match st1.previous with
           | none => none
           | some prev =>
             match (find_rule prev.kind).inf with
             | some .binaryI =>
               (match pp pn f (.binC ca) st1 with
                | none => none
                | some st2 => pp pn f (.loopC p ca) st2)
             | none => pp pn f (.loopC p ca) st1
         else some st)
    | .binC _ =>
      (match st.previous with
       | none => none
       | some prev =>
         match pp pn f (.precC ((find_rule prev.kind).prec + 1)) st with
         | none => none
         | some st1 =>
           match prev.kind with
           | .Plus => emit_byteF st1 (Op.u8 .Add)
           | .Minus => emit_byteF st1 (Op.u8 .Subtract)
           | .Star => emit_byteF st1 (Op.u8 .Multiply)
           | .Slash => emit_byteF st1 (Op.u8 .Divide)
           | .BangEqual => emit_bytesF st1 (Op.u8 .Equal) (Op.u8 .Not)
           | .EqualEqual => emit_byteF st1 (Op.u8 .Equal)
           | .Greater => emit_byteF st1 (Op.u8 .Greater)
           | .GreaterEqual => emit_bytesF st1 (Op.u8 .Less) (Op.u8 .Not)
           | .Less => emit_byteF st1 (Op.u8 .Less)
           | .LessEqual => emit_bytesF st1 (Op.u8 .Greater) (Op.u8 .Not)
           | _ => none)
    | .unC _ =>
      (match st.previous with
       | none => none
       | some prev =>
         match pp pn f (.precC 8) st with
         | none => none
         | some st1 =>
           match prev.kind with
           | .Minus => emit_byteF st1 (Op.u8 .Negate)
           | .Bang => emit_byteF st1 (Op.u8 .Not)
           | _ => none)
    | .grpC _ =>
      (match pp pn f .exprC st with
       | none => none
       | some st1 =>
         some (consumeF .RightParen "Expect ')' after expression." st1))
    | .varC ca =>
      (match st.previous with
       | none => none
       | some prev => pp pn f (.nvarC prev.lexeme ca) st)
    | .nvarC name ca =>
      (match identifier_constantF st name with
       | none => none
       | some (arg, st1) =>
         if ca then
           match match_currentF .Equal st1 with
           | none => none
           | some (b, st2) =>
             if b then
               match pp pn f .exprC st2 with
               | none => none
               | some st3 => emit_bytesF st3 (Op.u8 .SetGlobal) arg
             else emit_bytesF st2 (Op.u8 .GetGlobal) arg
         else emit_bytesF st1 (Op.u8 .GetGlobal) arg)

/-- `Parser::print_statement` from `src/parser.rs`. -/
def print_statementF {α : Type} (pn : String → Option α) (f : Nat)
    (st : PState α) : Option (PState α) :=
  match pp pn f .exprC st with
  | none => none
  | some st1 =>
    emit_byteF (consumeF .Semicolon "Expected ';' after value." st1)
      (Op.u8 .Print)

/-- `Parser::expression_statement` from `src/parser.rs`. -/
def expression_statementF {α : Type} (pn : String → Option α) (f : Nat)
    (st : PState α) : Option (PState α) :=
  match pp pn f .exprC st with
  | none => none
  | some st1 =>
    emit_byteF (consumeF .Semicolon "Expected ';' after expression." st1)
      (Op.u8 .Pop)

/-- `Parser::statement` from `src/parser.rs`. -/
def statementF {α : Type} (pn : String → Option α) (f : Nat) (st : PState α) :
    Option (PState α) :=
  match match_currentF .Print st with
  | none => none
  | some (true, st1) => print_statementF pn f st1
  | some (false, st1) => expression_statementF pn f st1

/-- `Parser::parse_variable` from `src/parser.rs`. -/
def parse_variableF {α : Type} (msg : String) (st : PState α) :
    Option (Nat × PState α) :=
  let st1 := consumeF .Identifier msg st
  match st1.previous with
  | none => none
  | some p => identifier_constantF st1 p.lexeme

/-- `Parser::var_declaration` from `src/parser.rs` (with
`Parser::define_variable` inlined as the final `DefineGlobal` emission). -/
def var_declarationF {α : Type} (pn : String → Option α) (f : Nat)
    (st : PState α) : Option (PState α) :=
  match parse_variableF "Expect variable name." st with
  | none => none
  | some (g, st1) =>
    match match_currentF .Equal st1 with
    | none => none
    | some (b, st2) =>
      match (if b then pp pn f .exprC st2 else emit_byteF st2 (Op.u8 .Nil)) with
      | none => none
      | some st3 =>
        emit_bytesF (consumeF .Semicolon "Expect ';' after variable declaration." st3)
          (Op.u8 .DefineGlobal) g

/-- The loop of `Parser::synchronize` from `src/parser.rs`: skip tokens
until just past a `;` or at a statement-starting keyword or `Eof`. -/
def synchronizeGo {α : Type} : Nat → PState α → Option (PState α)
  | 0, _ => none
  | f + 1, st =>
    match st.current with
    | none => none
    | some cur =>
      if cur.kind = TokenKind.Eof then some st
      else
        match st.previous with
        | none => none
        | some prev =>
          if prev.kind = TokenKind.Semicolon then some st
          else
            match cur.kind with
            | .Class | .Fun | .Var | .For | .If | .While | .Print | .Return =>
              some st
            | _ => synchronizeGo f (advance st)

/-- `Parser::synchronize` from `src/parser.rs`: clear `panic_mode`, then
discard tokens up to a statement boundary. -/
def synchronizeF {α : Type} (f : Nat) (st : PState α) : Option (PState α) :=
  synchronizeGo f { st with panic_mode := false }

/-- `Parser::declaration` from `src/parser.rs`. -/
def declarationF {α : Type} (pn : String → Option α) (f : Nat)
    (st : PState α) : Option (PState α) :=
  match match_currentF .Var st with
  | none => none
  | some (b, st1) =>
    match (if b then var_declarationF pn f st1 else statementF pn f st1) with
    | none => none
    | some st2 => if st2.panic_mode then synchronizeF f st2 else some st2

/-- The declaration loop of `Parser::compile` from `src/parser.rs`. -/
def compileLoop {α : Type} (pn : String → Option α) :
    Nat → PState α → Option (PState α)
  | 0, _ => none
  | f + 1, st =>
    match match_currentF .Eof st with
    | none => none
    | some (true, st1) => some st1
    | some (false, st1) =>
      match declarationF pn f st1 with
      | none => none
      | some st2 => compileLoop pn f st2

/-- `Parser::compile` from `src/parser.rs`: initial `advance`, declarations
until `Eof`, then fail if any error was recorded, else `end_compiler`
appends the implicit `Op::Return` (its disassembly call only prints).  The
boolean is `true` for `Ok(())`. -/
def compileF {α : Type} (pn : String → Option α) (f : Nat) (st : PState α) :
    Option (PState α × Bool) :=
  match compileLoop pn f (advance st) with
  | none => none
  | some st1 =>
    if st1.had_error then some (st1, false)
    else
      match emit_byteF st1 (Op.u8 .Return) with
      | none => none
      | some st2 => some (st2, true)

/-- The fresh parser state `run_script` in `src/lib.rs` builds: a new chunk,
a new interner, and the scanner over the given tokens. -/
def initPS (α : Type) (toks : List Token) : PState α :=
  ⟨toks, none, none, Chunk.init, Interner.new, false, false, []⟩

/-- Outcome of `run_script` from `src/lib.rs`: compilation failed, or the VM
ran with the given printed output and result. -/
inductive ScriptOut
  | compileFail
  | ran (out : List String) (r : RunRes)
deriving DecidableEq, Repr

/-- `run_script` from `src/lib.rs`: compile with a fresh chunk and interner;
on success hand both to a fresh VM and run it.  `none` is a panic in either
phase. -/
def runScriptF {α : Type} (pn : String → Option α) (N : NumOps α)
    (pf : Nat) (toks : List Token) : Option ScriptOut :=
  match compileF pn pf (initPS α toks) with
  | none => none
  | some (_, false) => some ScriptOut.compileFail
  | some (st, true) =>
    let vst : VmState α :=
      ⟨st.chunk.code, st.chunk.constants, st.chunk.lines, 0, [],
       st.interner, [], []⟩
    let r := runWrap N vst
    some (ScriptOut.ran r.1.output r.2)

/-- Iterated `Chunk::write_constant` on a fresh chunk (for the constant-pool
encoding boundary). -/
def iterWC : Nat → Option (Chunk Int)
  | 0 => some Chunk.init
  | n + 1 =>
    match iterWC n with
    | none => none
    | some c => c.write_constant (Value.Number 0) 1

/-- Concrete number parser used by the witnesses (decimal digits only; the
parse function is a parameter of the embedding, standing in for
`str::parse::<f64>`). -/
def pnInt : String → Option Int := fun s =>
  (s.data.foldl
    (fun acc c =>
      match acc with
      | none => none
      | some n =>
        if c.toNat < 48 then none
        else if 57 < c.toNat then none
        else some (n * 10 + (c.toNat - 48)))
    (some 0)).map (fun n => (n : Int))

/-- Numeric-operand test on values (`Value::Number`). -/
def isNumV {α : Type} : Value α → Bool
  | .Number _ => true
  | _ => false

/-- String-object test on values (`Value::Obj(Object::String)`). -/
def isStrV {α : Type} : Value α → Bool
  | .Obj (.String _) => true
  | _ => false

/-- Shape of the byte sequences the compiler's statement layer can emit,
indexed by their net operand-stack effect when each instruction succeeds:
`Constant`/`GetGlobal` push one, `SetGlobal` is neutral (it peeks),
`DefineGlobal` pops one, `Nil`/`True`/`False` push one, `Not`/`Negate` are
neutral, the binary operators pop two and push one, `Pop`/`Print` pop one. -/
inductive CodeDelta : List Nat → Int → Prop
  | nil : CodeDelta [] 0
  | constC (arg : Nat) {rest : List Nat} {d : Int} :
      CodeDelta rest d → CodeDelta (1 :: arg :: rest) (1 + d)
  | getG (arg : Nat) {rest : List Nat} {d : Int} :
      CodeDelta rest d → CodeDelta (9 :: arg :: rest) (1 + d)
  | setG (arg : Nat) {rest : List Nat} {d : Int} :
      CodeDelta rest d → CodeDelta (11 :: arg :: rest) d
  | defG (arg : Nat) {rest : List Nat} {d : Int} :
      CodeDelta rest d → CodeDelta (10 :: arg :: rest) (d - 1)
  | lit {b : Nat} (hb : b = 3 ∨ b = 4 ∨ b = 5) {rest : List Nat} {d : Int} :
      CodeDelta rest d → CodeDelta (b :: rest) (1 + d)
  | unop {b : Nat} (hb : b = 19 ∨ b = 20) {rest : List Nat} {d : Int} :
      CodeDelta rest d → CodeDelta (b :: rest) d
  | binop {b : Nat}
      (hb : b = 12 ∨ b = 13 ∨ b = 14 ∨ b = 15 ∨ b = 16 ∨ b = 17 ∨ b = 18)
      {rest : List Nat} {d : Int} :
      CodeDelta rest d → CodeDelta (b :: rest) (d - 1)
  | popP {b : Nat} (hb : b = 6 ∨ b = 21) {rest : List Nat} {d : Int} :
      CodeDelta rest d → CodeDelta (b :: rest) (d - 1)

/-- Net stack effect attributed to each expression-cluster call. -/
def callD : ECall → Int
  | .exprC => 1
  | .precC _ => 1
  | .loopC _ _ => 0
  | .binC _ => 0
  | .unC _ => 1
  | .grpC _ => 1
  | .varC _ => 1
  | .nvarC _ _ => 1

/-- Operand-byte count of each instruction, as the disassembler in
`src/chunk.rs` skips them: one byte for the constant/global/local
instructions, three for `ConstantLong`, none otherwise. -/
def opArity (op : Op) : Nat :=
  match op with
  | .Constant => 1
  | .GetLocal => 1
  | .SetLocal => 1
  | .GetGlobal => 1
  | .DefineGlobal => 1
  | .SetGlobal => 1
  | .ConstantLong => 3
  | _ => 0

/-- Instruction-boundary decoding of a byte sequence: the list of bytes at
opcode positions, skipping each opcode's operand bytes per `opArity`,
failing on invalid opcodes or truncated operands. -/
def opcodeBytes : List Nat → Option (List Nat)
  | [] => some []
  | b :: rest =>
    match Op.from_u8 b with
    | none => none
    | some op =>
      match opArity op with
      | 1 =>
        (match rest with
         | _ :: r => (opcodeBytes r).map (fun os => b :: os)
         | [] => none)
      | 3 =>
        (match rest with
         | _ :: _ :: _ :: r => (opcodeBytes r).map (fun os => b :: os)
         | _ => none)
      | 0 => (opcodeBytes rest).map (fun os => b :: os)
      | _ + 1 => none

/-- Well-formedness of an interner: the map and the vector are inverse
views of each other.  It holds for `Interner.new` and is preserved by
`intern` (below), so it holds for every reachable interner. -/
def WFI (I : Interner) : Prop :=
  (∀ i s, I.vec[i]? = some s → lookupA I.map s = some i) ∧
  (∀ s j, lookupA I.map s = some j → I.vec[j]? = some s)

/-!  Theorems.  -/

/-- C1: the claim states that the `ConstantLong` arm of `Vm::run` reads a
3-byte little-endian operand, pushes the constant at that 24-bit index and
advances `ip` past all three operand bytes.  The code instead shares the
one-byte `Constant` arm.  On the chunk `[ConstantLong, 0, 1, 0]` — long
operand `256` little-endian — with `constants[0] = 0` and
`constants[256] = 42`, the claimed behaviour would push `42` and stop with
stack `[42]`; the code pushes `constants[0]`, then decodes the remaining
operand bytes `1, 0` as a `Constant 0` instruction, ending with stack
`[0, 0]`. -/
theorem C1_constantlong_reads_one_byte :
    (go intOps 5 ⟨[Op.u8 .ConstantLong, 0, 1, 0],
        List.replicate 256 (Value.Number 0) ++ [Value.Number 42],
        [1, 1, 1, 1], 0, [], Interner.new, [], []⟩).2 = RunRes.ok ∧
    (go intOps 5 ⟨[Op.u8 .ConstantLong, 0, 1, 0],
        List.replicate 256 (Value.Number 0) ++ [Value.Number 42],
        [1, 1, 1, 1], 0, [], Interner.new, [], []⟩).1.stack
      = [Value.Number 0, Value.Number 0] ∧
    (go intOps 5 ⟨[Op.u8 .ConstantLong, 0, 1, 0],
        List.replicate 256 (Value.Number 0) ++ [Value.Number 42],
        [1, 1, 1, 1], 0, [], Interner.new, [], []⟩).1.stack
      ≠ [Value.Number 42] := by
  refine ⟨by decide, by decide, by decide⟩

/-- C2: the claim states `len(lines) == len(code)` is preserved by every
chunk operation including `write_constant`.  `Chunk::write_constant` pushes
an extra line entry before delegating to `write`, so a single call on a
fresh chunk yields 2 code bytes but 3 line entries. -/
theorem C2_write_constant_breaks_line_table_parity :
    ((Chunk.init : Chunk Int).write_constant (Value.Number 1) 1).map
      (fun c => (c.code.length, c.lines.length)) = some (2, 3) := by
  decide

/-- C3 counterexample: after 255 constants have been written through
`write_constant`, the 256th (pool index 255) still uses the SHORT
`Op::Constant` form — its opcode byte at offset 510 is `1`, not the
`Op::ConstantLong` byte `2` the claim requires for the 256th and later
loads. -/
theorem C3_counterexample_256th_still_short :
    (iterWC 256).bind (fun c => c.code.get? 510) = some (Op.u8 .Constant) ∧
    (iterWC 256).bind (fun c => c.code.get? 510) ≠ some (Op.u8 .ConstantLong) := by
  have h : (iterWC 256).bind (fun c => c.code.get? 510) = some 1 := by
    set_option maxRecDepth 4000 in decide
  exact ⟨h, by rw [h]; decide⟩

/-- C3 (amended): `write_constant` uses the short 1-byte form exactly for
the first 256 constants (pool index < 256), the long 3-byte little-endian
form from the 257th up to the 2^24-th (index < 2^24), and panics once the
pool index would reach 2^24. -/
theorem C3_write_constant_encoding {α : Type} (c : Chunk α) (v : Value α)
    (l : Nat) :
    (c.constants.length < 256 →
      c.write_constant v l = some
        ⟨c.code ++ [Op.u8 .Constant, c.constants.length],
         c.constants ++ [v], c.lines ++ [l, l, l]⟩) ∧
    (256 ≤ c.constants.length → c.constants.length < 16777216 →
      c.write_constant v l = some
        ⟨c.code ++ Op.u8 .ConstantLong :: leBytes3 c.constants.length,
         c.constants ++ [v], c.lines ++ [l, l, l, l, l]⟩) ∧
    (16777216 ≤ c.constants.length → c.write_constant v l = none) := by
  refine ⟨fun h1 => ?_, fun h1 h2 => ?_, fun h1 => ?_⟩
  · simp only [Chunk.write_constant, Chunk.add_constant, Chunk.write, leBytes3]
    rw [if_pos h1]
    simp [Nat.mod_eq_of_lt h1, List.append_assoc]
  · simp only [Chunk.write_constant, Chunk.add_constant, Chunk.write, leBytes3,
      List.foldl]
    rw [if_neg (by omega), if_pos h2]
    simp [List.append_assoc]
  · simp only [Chunk.write_constant, Chunk.add_constant, Chunk.write]
    rw [if_neg (by omega), if_neg (by omega)]

set_option maxRecDepth 8000 in
/-- Witness for the amended C3: concrete short-form and long-form calls. -/
theorem C3_witness :
    (Chunk.init : Chunk Int).write_constant (Value.Number 5) 7
      = some ⟨[1, 0], [Value.Number 5], [7, 7, 7]⟩ ∧
    (⟨[], List.replicate 256 (Value.Number 0), []⟩ : Chunk Int).write_constant
        (Value.Number 5) 7
      = some ⟨[2, 0, 1, 0],
              List.replicate 256 (Value.Number 0) ++ [Value.Number 5],
              [7, 7, 7, 7, 7]⟩ := by
  constructor
  · exact (C3_write_constant_encoding (Chunk.init : Chunk Int)
      (Value.Number 5) 7).1 (by decide)
  · exact (C3_write_constant_encoding
      (⟨[], List.replicate 256 (Value.Number 0), []⟩ : Chunk Int)
      (Value.Number 5) 7).2.1 (by simp [List.length_replicate])
      (by simp [List.length_replicate])

/-- C4: the claim states every syntax error sets both `had_error` and
`panic_mode`, that panic mode suppresses further diagnostics, and that the
compiler synchronizes at the end of the declaration.  `Parser::error_at`
never sets `panic_mode`, so compiling `1 + ;` records the cascading second
diagnostic as well (two diagnostics), leaves `panic_mode` false, and never
reaches `synchronize`. -/
theorem C4_panic_mode_never_set :
    (compileF pnInt 20 (initPS Int
        [⟨.Number, "1", 1⟩, ⟨.Plus, "+", 1⟩, ⟨.Semicolon, ";", 1⟩])).map
      (fun p => (p.2, p.1.had_error, p.1.panic_mode, p.1.errors.length))
      = some (false, true, false, 2) := by
  decide

/-- C5: the claim states an undefined-variable runtime error reports the
failing instruction's source line from the chunk's line table.  The
`GetGlobal`/`SetGlobal` arms construct `RuntimeError` directly with only
`Undefined variable '<name>'`, bypassing `Vm::runtime_error` and its
`[line N] in script` prefix: executing `print y;` yields exactly that bare
message. -/
theorem C5_undefined_variable_error_has_no_line :
    runScriptF pnInt intOps 20
      [⟨.Print, "print", 1⟩, ⟨.Identifier, "y", 1⟩, ⟨.Semicolon, ";", 1⟩]
      = some (ScriptOut.ran [] (RunRes.err "Undefined variable 'y'")) := by
  decide

/-- Unfolding of `intern` when the text was already interned. -/
theorem intern_old {I : Interner} {s : String} {k : Nat}
    (h : lookupA I.map s = some k) : I.intern s = (I, k) := by
  simp [Interner.intern, h]

/-- Unfolding of `intern` when the text is new and the vector is small
enough for the `as u32` cast to be the identity. -/
theorem intern_new {I : Interner} {s : String} (h : lookupA I.map s = none)
    (hlen : I.vec.length < 4294967296) :
    I.intern s
      = (⟨(s, I.vec.length) :: I.map, I.vec ++ [s]⟩, I.vec.length) := by
  simp [Interner.intern, h, Nat.mod_eq_of_lt hlen]

/-- The fresh interner is well formed. -/
theorem WFI_new : WFI Interner.new := by
  constructor
  · intro i s h
    simp [Interner.new, List.get?] at h
  · intro s j h
    simp [Interner.new, lookupA] at h

/-- `intern` preserves interner well-formedness (below the `u32` cast
boundary). -/
theorem WFI_intern {I : Interner} (s : String) (hw : WFI I)
    (hlen : I.vec.length < 4294967296) : WFI (I.intern s).1 := by
  rcases hm : lookupA I.map s with _ | k
  · rw [intern_new hm hlen]
    constructor
    · intro i u hu
      rcases lt_trichotomy i I.vec.length with hi | hi | hi
      · rw [List.getElem?_append_left hi] at hu
        by_cases hsu : s = u
        · subst hsu
          exact absurd (hw.1 i s hu) (by simp [hm])
        · simpa [lookupA, hsu] using hw.1 i u hu
      · subst hi
        rw [List.getElem?_concat_length] at hu
        obtain rfl : s = u := by simpa using hu
        simp [lookupA]
      · have hnone : (I.vec ++ [s])[i]? = none := by
          rw [List.getElem?_eq_none]
          simp
          omega
        simp [hnone] at hu
    · intro u j hj
      by_cases hsu : s = u
      · subst hsu
        simp only [lookupA, if_pos rfl] at hj
        obtain rfl : I.vec.length = j := by simpa using hj
        exact List.getElem?_concat_length I.vec s
      · simp only [lookupA, if_neg hsu] at hj
        have hv := hw.2 u j hj
        have hjlt : j < I.vec.length := (List.getElem?_eq_some.mp hv).1
        rw [List.getElem?_append_left hjlt]
        exact hv
  · rw [intern_old hm]
    exact hw

/-- C9: on a well-formed interner (hence on every interner reachable from
`Interner.new`, by the first two conjuncts), interning the same text twice
returns the same id, interning distinct texts returns distinct ids, and
`lookup` of a freshly interned text returns that text.  The `vec.length`
bounds keep the source's `as u32` cast the identity. -/
theorem C9_interner_invariants :
    WFI Interner.new ∧
    (∀ (I : Interner) (s : String), WFI I → I.vec.length < 4294967296 →
      WFI (I.intern s).1) ∧
    (∀ (I : Interner) (s : String), WFI I → I.vec.length < 4294967296 →
      ((I.intern s).1.intern s).2 = (I.intern s).2) ∧
    (∀ (I : Interner) (s t : String), WFI I →
      I.vec.length + 1 < 4294967296 → s ≠ t →
      ((I.intern s).1.intern t).2 ≠ (I.intern s).2) ∧
    (∀ (I : Interner) (s : String), WFI I → I.vec.length < 4294967296 →
      (I.intern s).1.lookup (I.intern s).2 = some s) := by
  have hlook : ∀ (I : Interner) (s : String), WFI I →
      I.vec.length < 4294967296 →
      (I.intern s).1.lookup (I.intern s).2 = some s := by
    intro I s hw hlen
    rcases hm : lookupA I.map s with _ | k
    · rw [intern_new hm hlen]
      simp only [Interner.lookup, List.get?_eq_getElem?]
      exact List.getElem?_concat_length I.vec s
    · rw [intern_old hm]
      simp only [Interner.lookup, List.get?_eq_getElem?]
      exact hw.2 s k hm
  refine ⟨WFI_new, fun I s hw hlen => WFI_intern s hw hlen, ?_, ?_, hlook⟩
  · intro I s hw hlen
    rcases hm : lookupA I.map s with _ | k
    · rw [intern_new hm hlen]
      simp [Interner.intern, lookupA]
    · rw [intern_old hm]
      simp [Interner.intern, hm]
  · intro I s t hw hlen hst
    have hw1 : WFI (I.intern s).1 := WFI_intern s hw (by omega)
    have hs : (I.intern s).1.lookup (I.intern s).2 = some s :=
      hlook I s hw (by omega)
    have hs2 : (I.intern s).1.vec[(I.intern s).2]? = some s := by
      rw [← List.get?_eq_getElem?]
      exact hs
    have hlen1 : (I.intern s).1.vec.length < 4294967296 := by
      rcases hm : lookupA I.map s with _ | k
      · rw [intern_new hm (by omega)]
        show (I.vec ++ [s]).length < 4294967296
        simp
        omega
      · rw [intern_old hm]
        show I.vec.length < 4294967296
        omega
    rcases hm2 : lookupA (I.intern s).1.map t with _ | j
    · rw [intern_new hm2 hlen1]
      show (I.intern s).1.vec.length ≠ (I.intern s).2
      have hx : (I.intern s).2 < (I.intern s).1.vec.length :=
        (List.getElem?_eq_some.mp hs2).1
      omega
    · rw [intern_old hm2]
      show j ≠ (I.intern s).2
      intro heq
      have hv := hw1.2 t j hm2
      rw [heq] at hv
      rw [hs2] at hv
      exact hst (by simpa using hv)

/-- Witness for C9 at a concrete interner and texts. -/
theorem C9_witness :
    ((Interner.new.intern "a").1.intern "a").2 = (Interner.new.intern "a").2 ∧
    ((Interner.new.intern "a").1.intern "b").2 ≠ (Interner.new.intern "a").2 ∧
    (Interner.new.intern "a").1.lookup (Interner.new.intern "a").2
      = some "a" := by
  have h0 := C9_interner_invariants
  exact ⟨h0.2.2.1 Interner.new "a" h0.1 (by decide),
         h0.2.2.2.1 Interner.new "a" "b" h0.1 (by decide) (by decide),
         h0.2.2.2.2 Interner.new "a" h0.1 (by decide)⟩

/-- C6: the `Add` arm pops `b` then `a`; with two numbers it pushes their
sum; with two string objects it pushes the interned concatenation of `a`'s
text followed by `b`'s text (and `intern` returns the existing id when that
text is already present — third conjunct); any other combination is a
runtime error.  The final conjunct runs the compiled program
`print "a" + "b";` end to end and observes the output `ab`. -/
theorem C6_add_dispatch {α : Type} (N : NumOps α) :
    (∀ (st : VmState α) (nb na : α) (rest : List (Value α)),
      st.code.get? st.ip = some (Op.u8 .Add) →
      st.stack = Value.Number nb :: Value.Number na :: rest →
      step N st
        = .cont { st with
                  ip := st.ip + 1
                  stack := Value.Number (N.add na nb) :: rest }) ∧
    (∀ (st : VmState α) (ia jb : Nat) (rest : List (Value α)) (si sj : String),
      st.code.get? st.ip = some (Op.u8 .Add) →
      st.stack = Value.from_str_index jb :: Value.from_str_index ia :: rest →
      st.interner.lookup ia = some si →
      st.interner.lookup jb = some sj →
      step N st
        = .cont { st with
                  ip := st.ip + 1
                  interner := (st.interner.intern (si ++ sj)).1
                  stack :=
                    Value.from_str_index ((st.interner.intern (si ++ sj)).2)
                      :: rest }) ∧
    (∀ (I : Interner) (s : String) (k : Nat),
      lookupA I.map s = some k → I.intern s = (I, k)) ∧
    (∀ (st : VmState α) (b a : Value α) (rest : List (Value α)) (ln : Nat),
      st.code.get? st.ip = some (Op.u8 .Add) →
      st.stack = b :: a :: rest →
      (isNumV b && isNumV a) = false →
      (isStrV b && isStrV a) = false →
      st.lines.get? st.ip = some ln →
      step N st
        = .halt { st with ip := st.ip + 1 }
            (.err ("[line " ++ toString ln ++ "] in script" ++ "\n"
              ++ "Operands must be two numbers."))) ∧
    runScriptF pnInt intOps 20
      [⟨.Print, "print", 1⟩, ⟨.String, "\"a\"", 1⟩, ⟨.Plus, "+", 1⟩,
       ⟨.String, "\"b\"", 1⟩, ⟨.Semicolon, ";", 1⟩]
      = some (ScriptOut.ran ["ab"] RunRes.ok) := by
  refine ⟨?_, ?_, ?_, ?_, by decide⟩
  · intro st nb na rest hcode hstack
    simp only [step, hcode, Op.u8, Op.from_u8]
    simp [hstack]
  · intro st ia jb rest si sj hcode hstack hia hjb
    simp only [step, hcode, Op.u8, Op.from_u8]
    simp [hstack, Value.from_str_index, hia, hjb]
  · intro I s k h
    exact intern_old h
  · intro st b a rest ln hcode hstack hnum hstr hln
    simp only [step, hcode, Op.u8, Op.from_u8]
    cases b <;> cases a <;>
      simp_all [isNumV, isStrV, rtErr, Value.from_str_index]

/-- Witness for C6: each conjunct applied at a concrete machine state. -/
theorem C6_witness :
    step intOps ⟨[15], [], [9], 0,
        [Value.Number 2, Value.Number 3], Interner.new, [], []⟩
      = .cont ⟨[15], [], [9], 1, [Value.Number 5], Interner.new, [], []⟩ ∧
    step intOps ⟨[15], [], [9], 0,
        [Value.from_str_index 1, Value.from_str_index 0],
        ⟨[("a", 0), ("b", 1)], ["a", "b"]⟩, [], []⟩
      = .cont ⟨[15], [], [9], 1, [Value.from_str_index 2],
          ⟨[("ab", 2), ("a", 0), ("b", 1)], ["a", "b", "ab"]⟩, [], []⟩ ∧
    (⟨[("a", 0)], ["a"]⟩ : Interner).intern "a" = (⟨[("a", 0)], ["a"]⟩, 0) ∧
    step intOps ⟨[15], [], [9], 0,
        [Value.Nil, Value.Number 1], Interner.new, [], []⟩
      = .halt ⟨[15], [], [9], 1, [Value.Nil, Value.Number 1],
          Interner.new, [], []⟩
          (.err "[line 9] in script\nOperands must be two numbers.") := by
  have h := C6_add_dispatch intOps
  refine ⟨h.1 _ 2 3 [] (by decide) rfl, ?_, h.2.2.1 _ "a" 0 (by decide), ?_⟩
  · have h2 := h.2.1 ⟨[15], [], [9], 0,
      [Value.from_str_index 1, Value.from_str_index 0],
      ⟨[("a", 0), ("b", 1)], ["a", "b"]⟩, [], []⟩ 0 1 [] "a" "b"
      (by decide) rfl (by decide) (by decide)
    exact h2
  · have h4 := h.2.2.2.1 ⟨[15], [], [9], 0,
      [Value.Nil, Value.Number 1], Interner.new, [], []⟩
      Value.Nil (Value.Number 1) [] 9 (by decide) rfl (by decide) (by decide)
      (by decide)
    exact h4

/-- C7: when `Add`, `Subtract`, `Multiply`, `Divide`, `Greater`, `Less` or
`Negate` fails on an operand-type mismatch, the VM halts with the runtime
error and the halt state carries the operand stack unchanged — the popped
operands are pushed back in their original order (the halt state below is
the input state with only `ip` advanced). -/
theorem C7_mismatch_restores_stack {α : Type} (N : NumOps α) :
    (∀ (st : VmState α) (v : Value α) (rest : List (Value α)) (ln : Nat),
      st.code.get? st.ip = some (Op.u8 .Negate) →
      st.stack = v :: rest →
      isNumV v = false →
      st.lines.get? st.ip = some ln →
      step N st
        = .halt { st with ip := st.ip + 1 }
            (.err ("[line " ++ toString ln ++ "] in script" ++ "\n"
              ++ "Operand must be a number."))) ∧
    (∀ (op : Nat) (st : VmState α) (b a : Value α) (rest : List (Value α))
        (ln : Nat),
      (op = Op.u8 .Subtract ∨ op = Op.u8 .Multiply ∨ op = Op.u8 .Divide ∨
        op = Op.u8 .Greater ∨ op = Op.u8 .Less) →
      st.code.get? st.ip = some op →
      st.stack = b :: a :: rest →
      (isNumV b && isNumV a) = false →
      st.lines.get? st.ip = some ln →
      step N st
        = .halt { st with ip := st.ip + 1 }
            (.err ("[line " ++ toString ln ++ "] in script" ++ "\n"
              ++ "Operands must be numbers."))) ∧
    (∀ (st : VmState α) (b a : Value α) (rest : List (Value α)) (ln : Nat),
      st.code.get? st.ip = some (Op.u8 .Add) →
      st.stack = b :: a :: rest →
      (isNumV b && isNumV a) = false →
      (isStrV b && isStrV a) = false →
      st.lines.get? st.ip = some ln →
      step N st
        = .halt { st with ip := st.ip + 1 }
            (.err ("[line " ++ toString ln ++ "] in script" ++ "\n"
              ++ "Operands must be two numbers."))) := by
  refine ⟨?_, ?_, ?_⟩
  · intro st v rest ln hcode hstack hv hln
    simp only [step, hcode, Op.u8, Op.from_u8]
    cases v <;> simp_all [isNumV, rtErr]
  · intro op st b a rest ln hop hcode hstack hnum hln
    rcases hop with rfl | rfl | rfl | rfl | rfl <;>
      · simp only [step, hcode, Op.u8, Op.from_u8]
        cases b <;> cases a <;> simp_all [isNumV, rtErr]
  · intro st b a rest ln hcode hstack hnum hstr hln
    simp only [step, hcode, Op.u8, Op.from_u8]
    cases b <;> cases a <;>
      simp_all [isNumV, isStrV, rtErr, Value.from_str_index]

/-- Witness for C7: `Negate` on `Nil`, `Subtract` on `Number`/`Nil`, and
`Add` on `Bool`/`Number`, each halting with the operands still on the
stack. -/
theorem C7_witness :
    step intOps ⟨[20], [], [7], 0, [Value.Nil], Interner.new, [], []⟩
      = .halt ⟨[20], [], [7], 1, [Value.Nil], Interner.new, [], []⟩
          (.err "[line 7] in script\nOperand must be a number.") ∧
    step intOps ⟨[16], [], [7], 0, [Value.Number 1, Value.Nil],
        Interner.new, [], []⟩
      = .halt ⟨[16], [], [7], 1, [Value.Number 1, Value.Nil],
          Interner.new, [], []⟩
          (.err "[line 7] in script\nOperands must be numbers.") ∧
    step intOps ⟨[15], [], [7], 0, [Value.Bool true, Value.Number 1],
        Interner.new, [], []⟩
      = .halt ⟨[15], [], [7], 1, [Value.Bool true, Value.Number 1],
          Interner.new, [], []⟩
          (.err "[line 7] in script\nOperands must be two numbers.") := by
  have h := C7_mismatch_restores_stack intOps
  refine ⟨?_, ?_, ?_⟩
  · exact h.1 ⟨[20], [], [7], 0, [Value.Nil], Interner.new, [], []⟩
      Value.Nil [] 7 (by decide) rfl (by decide) (by decide)
  · exact h.2.1 16 ⟨[16], [], [7], 0, [Value.Number 1, Value.Nil],
      Interner.new, [], []⟩ (Value.Number 1) Value.Nil [] 7
      (by decide) (by decide) rfl (by decide) (by decide)
  · exact h.2.2 ⟨[15], [], [7], 0, [Value.Bool true, Value.Number 1],
      Interner.new, [], []⟩ (Value.Bool true) (Value.Number 1) [] 7
      (by decide) rfl (by decide) (by decide) (by decide)

theorem codeAt0 {P : List Nat} {b : Nat} {l : List Nat} :
    (P ++ b :: l).get? P.length = some b := by
  rw [List.get?_append_right (le_refl _)]
  simp

theorem codeAt1 {P : List Nat} {b c : Nat} {l : List Nat} :
    (P ++ b :: c :: l).get? (P.length + 1) = some c := by
  rw [List.get?_append_right (by omega)]
  simp

theorem go_succ {α : Type} (N : NumOps α) (f : Nat) (st : VmState α)
    (h : st.ip < st.code.length) :
    go N (f + 1) st
      = (match step N st with
         | .cont st1 => go N f st1
         | .halt st1 r => (st1, r)) := by
  simp [go, Nat.not_le.mpr h]

theorem CodeDelta.appendD {B1 B2 : List Nat} {d1 d2 : Int}
    (h1 : CodeDelta B1 d1) (h2 : CodeDelta B2 d2) :
    CodeDelta (B1 ++ B2) (d1 + d2) := by
  induction h1 with
  | nil => simpa using h2
  | constC arg h ih => simpa [add_assoc] using CodeDelta.constC arg ih
  | getG arg h ih => simpa [add_assoc] using CodeDelta.getG arg ih
  | setG arg h ih => simpa using CodeDelta.setG arg ih
  | defG arg h ih => simpa [sub_add_eq_add_sub] using CodeDelta.defG arg ih
  | lit hb h ih => simpa [add_assoc] using CodeDelta.lit hb ih
  | unop hb h ih => simpa using CodeDelta.unop hb ih
  | binop hb h ih => simpa [sub_add_eq_add_sub] using CodeDelta.binop hb ih
  | popP hb h ih => simpa [sub_add_eq_add_sub] using CodeDelta.popP hb ih

theorem binop_underflow {α : Type} (N : NumOps α) (st : VmState α) {b : Nat}
    (hb : b = 12 ∨ b = 13 ∨ b = 14 ∨ b = 15 ∨ b = 16 ∨ b = 17 ∨ b = 18)
    (hcode : st.code.get? st.ip = some b)
    (hshort : st.stack.length < 2) :
    step N st = .halt { st with ip := st.ip + 1 } RunRes.fatal := by
  rcases hstk : st.stack with _ | ⟨v0, _ | ⟨v1, r⟩⟩
  · rcases hb with rfl | rfl | rfl | rfl | rfl | rfl | rfl <;>
      simp only [step, hcode, Op.u8, Op.from_u8, hstk]
  · rcases hb with rfl | rfl | rfl | rfl | rfl | rfl | rfl <;>
      simp only [step, hcode, Op.u8, Op.from_u8, hstk]
  · rw [hstk] at hshort
    simp at hshort
    omega

theorem go_delta {α : Type} (N : NumOps α) {B : List Nat} {d : Int}
    (h : CodeDelta B d) :
    ∀ (f : Nat) (P : List Nat) (st st' : VmState α),
      st.code = P ++ B → st.ip = P.length →
      go N f st = (st', RunRes.ok) →
      (st'.stack.length : Int) = st.stack.length + d := by
  induction h with
  | nil =>
    intro f P st st' hc hip hgo
    match f with
    | 0 => simp [go] at hgo
    | f + 1 =>
      have hend : st.code.length ≤ st.ip := by
        rw [hc, hip]
        simp
      simp [go, hend] at hgo
      subst hgo
      simp
  | constC arg h ih =>
    intro f P st st' hc hip hgo
    match f with
    | 0 => simp [go] at hgo
    | f + 1 =>
      have hlt : st.ip < st.code.length := by
        rw [hc, hip]
        simp
      have hb : st.code.get? st.ip = some 1 := by
        rw [hc, hip]
        exact codeAt0
      have harg : st.code.get? (st.ip + 1) = some arg := by
        rw [hc, hip]
        exact codeAt1
      rw [go_succ N f st hlt] at hgo
      rcases hcv : st.constants.get? arg with _ | v
      · simp only [step, hb, Op.u8, Op.from_u8, harg, hcv] at hgo
        simp at hgo
      · simp only [step, hb, Op.u8, Op.from_u8, harg, hcv] at hgo
        have hx := ih f (P ++ [1, arg]) _ st' (by simp [hc]) (by simp [hip]) hgo
        simp at hx
        omega
  | getG arg h ih =>
    intro f P st st' hc hip hgo
    match f with
    | 0 => simp [go] at hgo
    | f + 1 =>
      have hlt : st.ip < st.code.length := by
        rw [hc, hip]
        simp
      have hb : st.code.get? st.ip = some 9 := by
        rw [hc, hip]
        exact codeAt0
      have harg : st.code.get? (st.ip + 1) = some arg := by
        rw [hc, hip]
        exact codeAt1
      rw [go_succ N f st hlt] at hgo
      rcases hcv : st.constants.get? arg with _ | v
      · simp only [step, readString, hb, Op.u8, Op.from_u8, harg, hcv] at hgo
        simp at hgo
      · rcases v with o | bb | nn | _
        case Obj =>
          rcases o with ⟨sid⟩
          rcases hlk : st.interner.lookup sid.id with _ | name
          · simp only [step, readString, hb, Op.u8, Op.from_u8, harg, hcv,
              hlk] at hgo
            simp at hgo
          · rcases hgl : lookupA st.globals name with _ | gv
            · simp only [step, readString, hb, Op.u8, Op.from_u8, harg, hcv,
                hlk, hgl] at hgo
              simp at hgo
            · simp only [step, readString, hb, Op.u8, Op.from_u8, harg, hcv,
                hlk, hgl] at hgo
              have hx := ih f (P ++ [9, arg]) _ st' (by simp [hc])
                (by simp [hip]) hgo
              simp at hx
              omega
        all_goals
          simp only [step, readString, hb, Op.u8, Op.from_u8, harg, hcv] at hgo
          simp at hgo
  | setG arg h ih =>
    intro f P st st' hc hip hgo
    match f with
    | 0 => simp [go] at hgo
    | f + 1 =>
      have hlt : st.ip < st.code.length := by
        rw [hc, hip]
        simp
      have hb : st.code.get? st.ip = some 11 := by
        rw [hc, hip]
        exact codeAt0
      have harg : st.code.get? (st.ip + 1) = some arg := by
        rw [hc, hip]
        exact codeAt1
      rw [go_succ N f st hlt] at hgo
      rcases hcv : st.constants.get? arg with _ | v
      · simp only [step, readString, hb, Op.u8, Op.from_u8, harg, hcv] at hgo
        simp at hgo
      · rcases v with o | bb | nn | _
        case Obj =>
          rcases o with ⟨sid⟩
          rcases hlk : st.interner.lookup sid.id with _ | name
          · simp only [step, readString, hb, Op.u8, Op.from_u8, harg, hcv,
              hlk] at hgo
            simp at hgo
          · rcases hgl : (lookupA st.globals name).isSome
            all_goals rcases hstk : st.stack with _ | ⟨v0, srest⟩
            all_goals
              simp only [step, readString, hb, Op.u8, Op.from_u8, harg, hcv,
                hlk, hstk, hgl] at hgo
            · simp at hgo
            · simp at hgo
            · simp at hgo
            · have hx := ih f (P ++ [11, arg]) _ st' (by simp [hc])
                (by simp [hip]) hgo
              simp at hx
              simp
              omega
        all_goals
          simp only [step, readString, hb, Op.u8, Op.from_u8, harg, hcv] at hgo
          simp at hgo
  | defG arg h ih =>
    intro f P st st' hc hip hgo
    match f with
    | 0 => simp [go] at hgo
    | f + 1 =>
      have hlt : st.ip < st.code.length := by
        rw [hc, hip]
        simp
      have hb : st.code.get? st.ip = some 10 := by
        rw [hc, hip]
        exact codeAt0
      have harg : st.code.get? (st.ip + 1) = some arg := by
        rw [hc, hip]
        exact codeAt1
      rw [go_succ N f st hlt] at hgo
      rcases hcv : st.constants.get? arg with _ | v
      · simp only [step, readString, hb, Op.u8, Op.from_u8, harg, hcv] at hgo
        simp at hgo
      · rcases v with o | bb | nn | _
        case Obj =>
          rcases o with ⟨sid⟩
          rcases hlk : st.interner.lookup sid.id with _ | name
          · simp only [step, readString, hb, Op.u8, Op.from_u8, harg, hcv,
              hlk] at hgo
            simp at hgo
          · rcases hstk : st.stack with _ | ⟨v0, srest⟩
            · simp only [step, readString, hb, Op.u8, Op.from_u8, harg, hcv,
                hlk, hstk] at hgo
              simp at hgo
            · simp only [step, readString, hb, Op.u8, Op.from_u8, harg, hcv,
                hlk, hstk] at hgo
              have hx := ih f (P ++ [10, arg]) _ st' (by simp [hc])
                (by simp [hip]) hgo
              simp at hx
              simp [hstk]
              omega
        all_goals
          simp only [step, readString, hb, Op.u8, Op.from_u8, harg, hcv] at hgo
          simp at hgo
  | lit hb h ih =>
    intro f P st st' hc hip hgo
    match f with
    | 0 => simp [go] at hgo
    | f + 1 =>
      rcases hb with rfl | rfl | rfl
      all_goals
        have hlt : st.ip < st.code.length := by
          rw [hc, hip]
          simp
      all_goals
        rw [go_succ N f st hlt] at hgo
      · have hb0 : st.code.get? st.ip = some 3 := by
          rw [hc, hip]
          exact codeAt0
        simp only [step, hb0, Op.u8, Op.from_u8] at hgo
        have hx := ih f (P ++ [3]) _ st' (by simp [hc]) (by simp [hip]) hgo
        simp at hx
        omega
      · have hb0 : st.code.get? st.ip = some 4 := by
          rw [hc, hip]
          exact codeAt0
        simp only [step, hb0, Op.u8, Op.from_u8] at hgo
        have hx := ih f (P ++ [4]) _ st' (by simp [hc]) (by simp [hip]) hgo
        simp at hx
        omega
      · have hb0 : st.code.get? st.ip = some 5 := by
          rw [hc, hip]
          exact codeAt0
        simp only [step, hb0, Op.u8, Op.from_u8] at hgo
        have hx := ih f (P ++ [5]) _ st' (by simp [hc]) (by simp [hip]) hgo
        simp at hx
        omega
  | unop hb h ih =>
    intro f P st st' hc hip hgo
    match f with
    | 0 => simp [go] at hgo
    | f + 1 =>
      have hlt : st.ip < st.code.length := by
        rw [hc, hip]
        simp
      rw [go_succ N f st hlt] at hgo
      rcases hb with rfl | rfl
      · have hb0 : st.code.get? st.ip = some 19 := by
          rw [hc, hip]
          exact codeAt0
        rcases hstk : st.stack with _ | ⟨v0, srest⟩
        · simp only [step, hb0, Op.u8, Op.from_u8, hstk] at hgo
          simp at hgo
        · simp only [step, hb0, Op.u8, Op.from_u8, hstk] at hgo
          have hx := ih f (P ++ [19]) _ st' (by simp [hc]) (by simp [hip]) hgo
          simp at hx
          simp [hstk]
          omega
      · have hb0 : st.code.get? st.ip = some 20 := by
          rw [hc, hip]
          exact codeAt0
        rcases hstk : st.stack with _ | ⟨v0, srest⟩
        · simp only [step, hb0, Op.u8, Op.from_u8, hstk] at hgo
          simp at hgo
        · rcases v0 with o | bb | nn | _
          case Number =>
            simp only [step, hb0, Op.u8, Op.from_u8, hstk] at hgo
            have hx := ih f (P ++ [20]) _ st' (by simp [hc]) (by simp [hip]) hgo
            simp at hx
            simp [hstk]
            omega
          all_goals
            simp only [step, hb0, Op.u8, Op.from_u8, hstk, rtErr,
              Nat.add_sub_cancel] at hgo
            rcases hliner : st.lines[st.ip]? with _ | lv
            all_goals simp [hliner] at hgo
  | @binop b0 hb rest0 d0 h ih =>
    intro f P st st' hc hip hgo
    match f with
    | 0 => simp [go] at hgo
    | f + 1 =>
      have hlt : st.ip < st.code.length := by
        rw [hc, hip]
        simp
      have hb0 : st.code.get? st.ip = some b0 := by
        rw [hc, hip]
        exact codeAt0
      rw [go_succ N f st hlt] at hgo
      rcases hstk : st.stack with _ | ⟨bv, _ | ⟨av, srest⟩⟩
      · rw [binop_underflow N st hb hb0 (by rw [hstk]; simp)] at hgo
        simp at hgo
      · rw [binop_underflow N st hb hb0 (by rw [hstk]; simp)] at hgo
        simp at hgo
      · rcases hb with rfl | rfl | rfl | rfl | rfl | rfl | rfl
        case inl =>
          have hb0 : st.code.get? st.ip = some 12 := by
            rw [hc, hip]
            exact codeAt0
          simp only [step, hb0, Op.u8, Op.from_u8, hstk] at hgo
          have hx := ih f (P ++ [12]) _ st' (by simp [hc]) (by simp [hip]) hgo
          simp at hx
          simp
          omega
        case inr.inr.inr.inl =>
          have hb0 : st.code.get? st.ip = some 15 := by
            rw [hc, hip]
            exact codeAt0
          rcases bv with o2 | bb2 | nn2 | _ <;> rcases av with o | bb | nn | _
          case Obj.Obj =>
            rcases o with ⟨sa⟩
            rcases o2 with ⟨sb⟩
            rcases hla : st.interner.lookup sa.id with _ | ta
            · simp only [step, hb0, Op.u8, Op.from_u8, hstk, hla] at hgo
              simp at hgo
            · rcases hlb : st.interner.lookup sb.id with _ | tb
              · simp only [step, hb0, Op.u8, Op.from_u8, hstk, hla, hlb] at hgo
                simp at hgo
              · simp only [step, hb0, Op.u8, Op.from_u8, hstk, hla, hlb] at hgo
                have hx := ih f (P ++ [15]) _ st' (by simp [hc])
                  (by simp [hip]) hgo
                simp at hx
                simp
                omega
          case Number.Number =>
            simp only [step, hb0, Op.u8, Op.from_u8, hstk] at hgo
            have hx := ih f (P ++ [15]) _ st' (by simp [hc]) (by simp [hip]) hgo
            simp at hx
            simp
            omega
          all_goals
            simp only [step, hb0, Op.u8, Op.from_u8, hstk, rtErr,
              Nat.add_sub_cancel] at hgo
          all_goals
            rcases hliner : st.lines[st.ip]? with _ | lv
          all_goals simp [hliner] at hgo
        case inr.inl =>
          have hb0 : st.code.get? st.ip = some 13 := by
            rw [hc, hip]
            exact codeAt0
          rcases av with o | bb | nn | _ <;> rcases bv with o2 | bb2 | nn2 | _
          case Number.Number =>
            simp only [step, hb0, Op.u8, Op.from_u8, hstk] at hgo
            have hx := ih f (P ++ [13]) _ st' (by simp [hc]) (by simp [hip]) hgo
            simp at hx
            simp
            omega
          all_goals
            simp only [step, hb0, Op.u8, Op.from_u8, hstk, rtErr,
              Nat.add_sub_cancel] at hgo
          all_goals
            rcases hliner : st.lines[st.ip]? with _ | lv
          all_goals simp [hliner] at hgo
        case inr.inr.inl =>
          have hb0 : st.code.get? st.ip = some 14 := by
            rw [hc, hip]
            exact codeAt0
          rcases av with o | bb | nn | _ <;> rcases bv with o2 | bb2 | nn2 | _
          case Number.Number =>
            simp only [step, hb0, Op.u8, Op.from_u8, hstk] at hgo
            have hx := ih f (P ++ [14]) _ st' (by simp [hc]) (by simp [hip]) hgo
            simp at hx
            simp
            omega
          all_goals
            simp only [step, hb0, Op.u8, Op.from_u8, hstk, rtErr,
              Nat.add_sub_cancel] at hgo
          all_goals
            rcases hliner : st.lines[st.ip]? with _ | lv
          all_goals simp [hliner] at hgo
        case inr.inr.inr.inr.inl =>
          have hb0 : st.code.get? st.ip = some 16 := by
            rw [hc, hip]
            exact codeAt0
          rcases av with o | bb | nn | _ <;> rcases bv with o2 | bb2 | nn2 | _
          case Number.Number =>
            simp only [step, hb0, Op.u8, Op.from_u8, hstk] at hgo
            have hx := ih f (P ++ [16]) _ st' (by simp [hc]) (by simp [hip]) hgo
            simp at hx
            simp
            omega
          all_goals
            simp only [step, hb0, Op.u8, Op.from_u8, hstk, rtErr,
              Nat.add_sub_cancel] at hgo
          all_goals
            rcases hliner : st.lines[st.ip]? with _ | lv
          all_goals simp [hliner] at hgo
        case inr.inr.inr.inr.inr.inl =>
          have hb0 : st.code.get? st.ip = some 17 := by
            rw [hc, hip]
            exact codeAt0
          rcases av with o | bb | nn | _ <;> rcases bv with o2 | bb2 | nn2 | _
          case Number.Number =>
            simp only [step, hb0, Op.u8, Op.from_u8, hstk] at hgo
            have hx := ih f (P ++ [17]) _ st' (by simp [hc]) (by simp [hip]) hgo
            simp at hx
            simp
            omega
          all_goals
            simp only [step, hb0, Op.u8, Op.from_u8, hstk, rtErr,
              Nat.add_sub_cancel] at hgo
          all_goals
            rcases hliner : st.lines[st.ip]? with _ | lv
          all_goals simp [hliner] at hgo
        case inr.inr.inr.inr.inr.inr =>
          have hb0 : st.code.get? st.ip = some 18 := by
            rw [hc, hip]
            exact codeAt0
          rcases av with o | bb | nn | _ <;> rcases bv with o2 | bb2 | nn2 | _
          case Number.Number =>
            simp only [step, hb0, Op.u8, Op.from_u8, hstk] at hgo
            have hx := ih f (P ++ [18]) _ st' (by simp [hc]) (by simp [hip]) hgo
            simp at hx
            simp
            omega
          all_goals
            simp only [step, hb0, Op.u8, Op.from_u8, hstk, rtErr,
              Nat.add_sub_cancel] at hgo
          all_goals
            rcases hliner : st.lines[st.ip]? with _ | lv
          all_goals simp [hliner] at hgo
  | popP hb h ih =>
    intro f P st st' hc hip hgo
    match f with
    | 0 => simp [go] at hgo
    | f + 1 =>
      have hlt : st.ip < st.code.length := by
        rw [hc, hip]
        simp
      rw [go_succ N f st hlt] at hgo
      rcases hb with rfl | rfl
      · have hb0 : st.code.get? st.ip = some 6 := by
          rw [hc, hip]
          exact codeAt0
        rcases hstk : st.stack with _ | ⟨v0, srest⟩
        · simp only [step, hb0, Op.u8, Op.from_u8, hstk] at hgo
          simp at hgo
        · simp only [step, hb0, Op.u8, Op.from_u8, hstk] at hgo
          have hx := ih f (P ++ [6]) _ st' (by simp [hc]) (by simp [hip]) hgo
          simp at hx
          simp [hstk]
          omega
      · have hb0 : st.code.get? st.ip = some 21 := by
          rw [hc, hip]
          exact codeAt0
        rcases hstk : st.stack with _ | ⟨v0, srest⟩
        · simp only [step, hb0, Op.u8, Op.from_u8, hstk] at hgo
          simp at hgo
        · rcases v0 with o | bb | nn | _
          case Obj =>
            rcases o with ⟨sid⟩
            rcases hlk : st.interner.lookup sid.id with _ | text
            · simp only [step, hb0, Op.u8, Op.from_u8, hstk, hlk] at hgo
              simp at hgo
            · simp only [step, hb0, Op.u8, Op.from_u8, hstk, hlk] at hgo
              have hx := ih f (P ++ [21]) _ st' (by simp [hc])
                (by simp [hip]) hgo
              simp at hx
              simp [hstk]
              omega
          all_goals
            simp only [step, hb0, Op.u8, Op.from_u8, hstk] at hgo
          all_goals
            have hx := ih f (P ++ [21]) _ st' (by simp [hc]) (by simp [hip]) hgo
          all_goals
            simp at hx
          all_goals
            simp [hstk]
          all_goals omega


@[simp] theorem error_at_chunk {α : Type} (st : PState α) (tok : Option Token)
    (msg : String) : (error_at st tok msg).chunk = st.chunk := by
  simp only [error_at]
  split <;> rfl

@[simp] theorem error_at_had_error {α : Type} (st : PState α)
    (tok : Option Token) (msg : String) :
    (error_at st tok msg).had_error = true := by
  simp only [error_at]
  split <;> rfl

@[simp] theorem errorPrev_chunk {α : Type} (st : PState α) (msg : String) :
    (errorPrev st msg).chunk = st.chunk := error_at_chunk ..

@[simp] theorem errorPrev_had_error {α : Type} (st : PState α) (msg : String) :
    (errorPrev st msg).had_error = true := error_at_had_error ..

theorem advLoop_chunk {α : Type} :
    ∀ (ts : List Token) (st : PState α), (advLoop st ts).chunk = st.chunk := by
  intro ts
  induction ts with
  | nil => intro st; rfl
  | cons t ts ih =>
    intro st
    simp only [advLoop]
    split
    · rw [ih]
      simp
    · rfl

theorem advLoop_he {α : Type} :
    ∀ (ts : List Token) (st : PState α), st.had_error = true →
      (advLoop st ts).had_error = true := by
  intro ts
  induction ts with
  | nil => intro st h; exact h
  | cons t ts ih =>
    intro st h
    simp only [advLoop]
    split
    · exact ih _ (by simp)
    · exact h

@[simp] theorem advance_chunk {α : Type} (st : PState α) :
    (advance st).chunk = st.chunk := by
  unfold advance
  rw [advLoop_chunk]

theorem advance_he {α : Type} (st : PState α) (h : st.had_error = true) :
    (advance st).had_error = true := by
  unfold advance
  exact advLoop_he _ _ h

theorem match_currentF_spec {α : Type} {k : TokenKind} {st : PState α}
    {b : Bool} {st1 : PState α} (h : match_currentF k st = some (b, st1)) :
    st1.chunk = st.chunk ∧ (st.had_error = true → st1.had_error = true) := by
  unfold match_currentF at h
  split at h
  · exact absurd h (by simp)
  · split at h
    · injection Option.some.inj h with hb hst
      subst hb
      subst hst
      exact ⟨advance_chunk st, advance_he st⟩
    · injection Option.some.inj h with hb hst
      subst hb
      subst hst
      exact ⟨rfl, fun hh => hh⟩

theorem consumeF_spec {α : Type} (k : TokenKind) (msg : String)
    (st : PState α) :
    (consumeF k msg st).chunk = st.chunk ∧
    (st.had_error = true → (consumeF k msg st).had_error = true) := by
  simp only [consumeF]
  split
  · split
    · exact ⟨advance_chunk st, advance_he st⟩
    · exact ⟨by simp [error_at_current], by simp [error_at_current]⟩
  · exact ⟨by simp [error_at_current], by simp [error_at_current]⟩

theorem emit_byteF_spec {α : Type} {st : PState α} {bt : Nat}
    {st1 : PState α} (h : emit_byteF st bt = some st1) :
    st1.chunk.code = st.chunk.code ++ [bt] ∧
    st1.had_error = st.had_error := by
  unfold emit_byteF at h
  split at h
  · exact absurd h (by simp)
  · have h1 := Option.some.inj h
    subst h1
    exact ⟨rfl, rfl⟩

theorem emit_bytesF_spec {α : Type} {st : PState α} {b1 b2 : Nat}
    {st1 : PState α} (h : emit_bytesF st b1 b2 = some st1) :
    st1.chunk.code = st.chunk.code ++ [b1, b2] ∧
    st1.had_error = st.had_error := by
  unfold emit_bytesF at h
  split at h
  · exact absurd h (by simp)
  case h_2 stm heq =>
    obtain ⟨h1, h2⟩ := emit_byteF_spec heq
    obtain ⟨h3, h4⟩ := emit_byteF_spec h
    refine ⟨?_, by rw [h4, h2]⟩
    rw [h3, h1]
    simp

theorem make_constantF_spec {α : Type} {st : PState α} {v : Value α}
    {k : Nat} {st1 : PState α} (h : make_constantF st v = some (k, st1)) :
    st1.chunk.code = st.chunk.code ∧ st1.had_error = st.had_error := by
  simp only [make_constantF] at h
  split at h
  · injection Option.some.inj h with h1 h2
    subst h1
    subst h2
    exact ⟨rfl, rfl⟩
  · exact absurd h (by simp)

theorem identifier_constantF_spec {α : Type} {st : PState α} {name : String}
    {k : Nat} {st1 : PState α}
    (h : identifier_constantF st name = some (k, st1)) :
    st1.chunk.code = st.chunk.code ∧ st1.had_error = st.had_error := by
  simp only [identifier_constantF] at h
  simpa using make_constantF_spec h

theorem emit_constantF_spec {α : Type} {st : PState α} {v : Value α}
    {st1 : PState α} (h : emit_constantF st v = some st1) :
    (∃ k, st1.chunk.code = st.chunk.code ++ [1, k]) ∧
    st1.had_error = st.had_error := by
  unfold emit_constantF at h
  split at h
  · exact absurd h (by simp)
  case h_2 k2 stm heq =>
    obtain ⟨h1, h2⟩ := make_constantF_spec heq
    obtain ⟨h3, h4⟩ := emit_bytesF_spec h
    refine ⟨⟨k2, ?_⟩, by rw [h4, h2]⟩
    rw [h3, h1]
    rfl


theorem numberF_spec {α : Type} {pn : String → Option α} {st st1 : PState α}
    (h : numberF pn st = some st1) :
    (∃ k, st1.chunk.code = st.chunk.code ++ [1, k]) ∧
    st1.had_error = st.had_error := by
  unfold numberF at h
  split at h
  · exact absurd h (by simp)
  · split at h
    · exact absurd h (by simp)
    · exact emit_constantF_spec h

theorem stringF_spec {α : Type} {st st1 : PState α}
    (h : stringF st = some st1) :
    (∃ k, st1.chunk.code = st.chunk.code ++ [1, k]) ∧
    st1.had_error = st.had_error := by
  unfold stringF at h
  split at h
  · exact absurd h (by simp)
  · split at h
    · exact absurd h (by simp)
    · split at h
      · split at h
        · exact absurd h (by simp)
        · exact emit_constantF_spec h
      · simpa using emit_constantF_spec h

theorem literalF_spec {α : Type} {st st1 : PState α}
    (h : literalF st = some st1) :
    (∃ b, (b = 3 ∨ b = 4 ∨ b = 5) ∧
      st1.chunk.code = st.chunk.code ++ [b]) ∧
    st1.had_error = st.had_error := by
  unfold literalF at h
  split at h
  · exact absurd h (by simp)
  · split at h
    · exact ⟨⟨5, by simp, (emit_byteF_spec h).1⟩, (emit_byteF_spec h).2⟩
    · exact ⟨⟨4, by simp, (emit_byteF_spec h).1⟩, (emit_byteF_spec h).2⟩
    · exact ⟨⟨3, by simp, (emit_byteF_spec h).1⟩, (emit_byteF_spec h).2⟩
    · exact absurd h (by simp)

theorem synchronizeGo_spec {α : Type} :
    ∀ (f : Nat) (st st1 : PState α), synchronizeGo f st = some st1 →
      st1.chunk = st.chunk ∧ (st.had_error = true → st1.had_error = true) := by
  intro f
  induction f with
  | zero => intro st st1 h; simp [synchronizeGo] at h
  | succ f ih =>
    intro st st1 h
    unfold synchronizeGo at h
    repeat' split at h
    all_goals
      first
      | (have h1 := Option.some.inj h
         subst h1
         exact ⟨rfl, fun hh => hh⟩)
      | exact Option.noConfusion h
      | (obtain ⟨h1, h2⟩ := ih _ _ h
         rw [h1]
         exact ⟨advance_chunk st, fun hh => h2 (advance_he st hh)⟩)

theorem synchronizeF_spec {α : Type} {f : Nat} {st st1 : PState α}
    (h : synchronizeF f st = some st1) :
    st1.chunk = st.chunk ∧ (st.had_error = true → st1.had_error = true) := by
  unfold synchronizeF at h
  simpa using synchronizeGo_spec f _ st1 h


theorem pp_he_mono {α : Type} (pn : String → Option α) :
    ∀ (f : Nat) (c : ECall) (st st' : PState α),
      pp pn f c st = some st' → st.had_error = true → st'.had_error = true := by
  intro f
  induction f with
  | zero => intro c st st' h; simp [pp] at h
  | succ f ih =>
    intro c st st' h he
    cases c with
    | exprC =>
      simp only [pp] at h
      exact ih _ _ _ h he
    | precC p =>
      simp only [pp] at h
      split at h
      · exact Option.noConfusion h
      case h_2 prev hprev =>
        split at h
        case h_1 =>
          have h1 := Option.some.inj h
          subst h1
          simp
        case h_2 pf hpf =>
          split at h
          · exact Option.noConfusion h
          case h_2 st2 hst2 =>
            split at h
            · exact Option.noConfusion h
            case h_2 st3 hst3 =>
              have he2 : st2.had_error = true := by
                have he1 : (advance st).had_error = true := advance_he st he
                cases pf
                case groupingP => exact ih _ _ _ hst2 he1
                case unaryP => exact ih _ _ _ hst2 he1
                case variableP => exact ih _ _ _ hst2 he1
                case stringP => rw [(stringF_spec hst2).2]; exact he1
                case numberP => rw [(numberF_spec hst2).2]; exact he1
                case literalP => rw [(literalF_spec hst2).2]; exact he1
              have he3 : st3.had_error = true := ih _ _ _ hst3 he2
              split at h
              · split at h
                · exact Option.noConfusion h
                case h_2 b st4 hmc =>
                  have he4 : st4.had_error = true :=
                    (match_currentF_spec hmc).2 he3
                  split at h
                  · have h1 := Option.some.inj h
                    subst h1
                    simp
                  · have h1 := Option.some.inj h
                    subst h1
                    exact he4
              · have h1 := Option.some.inj h
                subst h1
                exact he3
    | loopC p ca =>
      simp only [pp] at h
      split at h
      · exact Option.noConfusion h
      case h_2 cur hcur =>
        split at h
        · split at h
          · exact Option.noConfusion h
          case h_2 prev hprev =>
            split at h
            case h_1 =>
              split at h
              · exact Option.noConfusion h
              case h_2 st2 hbin =>
                exact ih _ _ _ h (ih _ _ _ hbin (advance_he st he))
            case h_2 =>
              exact ih _ _ _ h (advance_he st he)
        · have h1 := Option.some.inj h
          subst h1
          exact he
    | binC ca =>
      simp only [pp] at h
      split at h
      · exact Option.noConfusion h
      case h_2 prev hprev =>
        split at h
        · exact Option.noConfusion h
        case h_2 st1 hrec =>
          have he1 := ih _ _ _ hrec he
          split at h
          all_goals
            first
            | exact Option.noConfusion h
            | (rw [(emit_byteF_spec h).2]; exact he1)
            | (rw [(emit_bytesF_spec h).2]; exact he1)
    | unC ca =>
      simp only [pp] at h
      split at h
      · exact Option.noConfusion h
      case h_2 prev hprev =>
        split at h
        · exact Option.noConfusion h
        case h_2 st1 hrec =>
          have he1 := ih _ _ _ hrec he
          split at h
          all_goals
            first
            | exact Option.noConfusion h
            | (rw [(emit_byteF_spec h).2]; exact he1)
    | grpC ca =>
      simp only [pp] at h
      split at h
      · exact Option.noConfusion h
      case h_2 st1 hrec =>
        have h1 := Option.some.inj h
        subst h1
        exact (consumeF_spec _ _ _).2 (ih _ _ _ hrec he)
    | varC ca =>
      simp only [pp] at h
      split at h
      · exact Option.noConfusion h
      case h_2 prev hprev =>
        exact ih _ _ _ h he
    | nvarC name ca =>
      simp only [pp] at h
      split at h
      · exact Option.noConfusion h
      case h_2 arg st1 hid =>
        have he1 : st1.had_error = true := by
          rw [(identifier_constantF_spec hid).2]
          exact he
        split at h
        · split at h
          · exact Option.noConfusion h
          case h_2 b st2 hmc =>
            have he2 := (match_currentF_spec hmc).2 he1
            split at h
            · split at h
              · exact Option.noConfusion h
              case h_2 st3 hexpr =>
                rw [(emit_bytesF_spec h).2]
                exact ih _ _ _ hexpr he2
            · rw [(emit_bytesF_spec h).2]
              exact he2
        · rw [(emit_bytesF_spec h).2]
          exact he1


theorem cd_const (k : Nat) : CodeDelta [1, k] 1 := by
  simpa using CodeDelta.constC k CodeDelta.nil

theorem cd_getG (k : Nat) : CodeDelta [9, k] 1 := by
  simpa using CodeDelta.getG k CodeDelta.nil

theorem cd_setG (k : Nat) : CodeDelta [11, k] 0 := CodeDelta.setG k CodeDelta.nil

theorem cd_defG (k : Nat) : CodeDelta [10, k] (-1) := by
  simpa using CodeDelta.defG k CodeDelta.nil

theorem cd_lit {b : Nat} (hb : b = 3 ∨ b = 4 ∨ b = 5) : CodeDelta [b] 1 := by
  simpa using CodeDelta.lit hb CodeDelta.nil

theorem cd_unop {b : Nat} (hb : b = 19 ∨ b = 20) : CodeDelta [b] 0 :=
  CodeDelta.unop hb CodeDelta.nil

theorem cd_binop {b : Nat}
    (hb : b = 12 ∨ b = 13 ∨ b = 14 ∨ b = 15 ∨ b = 16 ∨ b = 17 ∨ b = 18) :
    CodeDelta [b] (-1) := by
  simpa using CodeDelta.binop hb CodeDelta.nil

theorem cd_binop_unop {b : Nat}
    (hb : b = 12 ∨ b = 13 ∨ b = 14 ∨ b = 15 ∨ b = 16 ∨ b = 17 ∨ b = 18) :
    CodeDelta [b, 19] (-1) := by
  simpa using CodeDelta.binop hb (cd_unop (Or.inl rfl))

theorem cd_pop {b : Nat} (hb : b = 6 ∨ b = 21) : CodeDelta [b] (-1) := by
  simpa using CodeDelta.popP hb CodeDelta.nil

theorem binC_emit_one {α : Type} {st1 st' : PState α} {bop : Nat}
    (hb : bop = 12 ∨ bop = 13 ∨ bop = 14 ∨ bop = 15 ∨ bop = 16 ∨ bop = 17 ∨
      bop = 18)
    (h : emit_byteF st1 bop = some st')
    {st : PState α} {B1 : List Nat}
    (hB1 : st1.chunk.code = st.chunk.code ++ B1)
    (hd1 : st1.had_error = false → CodeDelta B1 1) :
    ∃ B, st'.chunk.code = st.chunk.code ++ B ∧
      (st'.had_error = false → CodeDelta B 0) := by
  obtain ⟨hc2, he2⟩ := emit_byteF_spec h
  refine ⟨B1 ++ [bop], by rw [hc2, hB1, List.append_assoc], fun hf => ?_⟩
  have hf1 : st1.had_error = false := by
    rw [← he2]
    exact hf
  simpa using CodeDelta.appendD (hd1 hf1) (cd_binop hb)

theorem binC_emit_two {α : Type} {st1 st' : PState α} {bop : Nat}
    (hb : bop = 12 ∨ bop = 13 ∨ bop = 14 ∨ bop = 15 ∨ bop = 16 ∨ bop = 17 ∨
      bop = 18)
    (h : emit_bytesF st1 bop 19 = some st')
    {st : PState α} {B1 : List Nat}
    (hB1 : st1.chunk.code = st.chunk.code ++ B1)
    (hd1 : st1.had_error = false → CodeDelta B1 1) :
    ∃ B, st'.chunk.code = st.chunk.code ++ B ∧
      (st'.had_error = false → CodeDelta B 0) := by
  obtain ⟨hc2, he2⟩ := emit_bytesF_spec h
  refine ⟨B1 ++ [bop, 19], by rw [hc2, hB1, List.append_assoc], fun hf => ?_⟩
  have hf1 : st1.had_error = false := by
    rw [← he2]
    exact hf
  simpa using CodeDelta.appendD (hd1 hf1) (cd_binop_unop hb)

theorem unC_emit {α : Type} {st1 st' : PState α} {bop : Nat}
    (hb : bop = 19 ∨ bop = 20)
    (h : emit_byteF st1 bop = some st')
    {st : PState α} {B1 : List Nat}
    (hB1 : st1.chunk.code = st.chunk.code ++ B1)
    (hd1 : st1.had_error = false → CodeDelta B1 1) :
    ∃ B, st'.chunk.code = st.chunk.code ++ B ∧
      (st'.had_error = false → CodeDelta B 1) := by
  obtain ⟨hc2, he2⟩ := emit_byteF_spec h
  refine ⟨B1 ++ [bop], by rw [hc2, hB1, List.append_assoc], fun hf => ?_⟩
  have hf1 : st1.had_error = false := by
    rw [← he2]
    exact hf
  simpa using CodeDelta.appendD (hd1 hf1) (cd_unop hb)

theorem pp_code {α : Type} (pn : String → Option α) :
    ∀ (f : Nat) (c : ECall) (st st' : PState α),
      pp pn f c st = some st' →
      ∃ B, st'.chunk.code = st.chunk.code ++ B ∧
        (st'.had_error = false → CodeDelta B (callD c)) := by
  intro f
  induction f with
  | zero => intro c st st' h; simp [pp] at h
  | succ f ih =>
    intro c st st' h
    cases c with
    | exprC =>
      simp only [pp] at h
      obtain ⟨B, hB, hd⟩ := ih _ _ _ h
      exact ⟨B, hB, fun hf => by simpa [callD] using hd hf⟩
    | precC p =>
      simp only [pp] at h
      split at h
      · exact Option.noConfusion h
      case h_2 prev hprev =>
        split at h
        case h_1 =>
          have h1 := Option.some.inj h
          subst h1
          refine ⟨[], by simp, fun hf => ?_⟩
          simp at hf
        case h_2 pf hpf =>
          split at h
          · exact Option.noConfusion h
          case h_2 st2 hst2 =>
            split at h
            · exact Option.noConfusion h
            case h_2 st3 hst3 =>
              have hpre : ∃ B1, st2.chunk.code = st.chunk.code ++ B1 ∧
                  (st2.had_error = false → CodeDelta B1 1) := by
                cases pf
                case groupingP =>
                  obtain ⟨B1, hB1, hd1⟩ := ih _ _ _ hst2
                  rw [advance_chunk] at hB1
                  exact ⟨B1, hB1, fun hf => by simpa [callD] using hd1 hf⟩
                case unaryP =>
                  obtain ⟨B1, hB1, hd1⟩ := ih _ _ _ hst2
                  rw [advance_chunk] at hB1
                  exact ⟨B1, hB1, fun hf => by simpa [callD] using hd1 hf⟩
                case variableP =>
                  obtain ⟨B1, hB1, hd1⟩ := ih _ _ _ hst2
                  rw [advance_chunk] at hB1
                  exact ⟨B1, hB1, fun hf => by simpa [callD] using hd1 hf⟩
                case stringP =>
                  obtain ⟨⟨k, hk⟩, heq⟩ := stringF_spec hst2
                  rw [advance_chunk] at hk
                  exact ⟨[1, k], hk, fun _ => cd_const k⟩
                case numberP =>
                  obtain ⟨⟨k, hk⟩, heq⟩ := numberF_spec hst2
                  rw [advance_chunk] at hk
                  exact ⟨[1, k], hk, fun _ => cd_const k⟩
                case literalP =>
                  obtain ⟨⟨b, hb, hk⟩, heq⟩ := literalF_spec hst2
                  rw [advance_chunk] at hk
                  exact ⟨[b], hk, fun _ => cd_lit hb⟩
              obtain ⟨B1, hB1, hd1⟩ := hpre
              obtain ⟨B2, hB2, hd2⟩ := ih _ _ _ hst3
              have hcode3 : st3.chunk.code = st.chunk.code ++ (B1 ++ B2) := by
                rw [hB2, hB1, List.append_assoc]
              have hfin : ∀ stf : PState α, stf.chunk.code = st3.chunk.code →
                  (stf.had_error = false → st3.had_error = false) →
                  ∃ B, stf.chunk.code = st.chunk.code ++ B ∧
                    (stf.had_error = false → CodeDelta B (callD (ECall.precC p))) := by
                intro stf hcf hef
                refine ⟨B1 ++ B2, by rw [hcf, hcode3], fun hf => ?_⟩
                have h3 : st3.had_error = false := hef hf
                have h2 : st2.had_error = false := by
                  rcases hq : st2.had_error with hfq | htq
                  · rfl
                  · rw [pp_he_mono pn f _ _ _ hst3 hq] at h3
                    exact h3
                have hcd := CodeDelta.appendD (hd1 h2) (hd2 h3)
                simpa [callD] using hcd
              split at h
              · split at h
                · exact Option.noConfusion h
                case h_2 b st4 hmc =>
                  obtain ⟨hmc1, hmc2⟩ := match_currentF_spec hmc
                  split at h
                  · have h1 := Option.some.inj h
                    subst h1
                    refine ⟨B1 ++ B2, ?_, fun hf => ?_⟩
                    · rw [errorPrev_chunk, hmc1, hcode3]
                    · simp at hf
                  · have h1 := Option.some.inj h
                    subst h1
                    refine hfin st4 (by rw [hmc1]) (fun hf => ?_)
                    rcases hq : st3.had_error with hfq | htq
                    · rfl
                    · rw [hmc2 hq] at hf
                      exact hf
              · have h1 := Option.some.inj h
                subst h1
                exact hfin st3 rfl (fun hf => hf)
    | loopC p ca =>
      simp only [pp] at h
      split at h
      · exact Option.noConfusion h
      case h_2 cur hcur =>
        split at h
        · split at h
          · exact Option.noConfusion h
          case h_2 prev hprev =>
            split at h
            case h_1 =>
              split at h
              · exact Option.noConfusion h
              case h_2 st2 hbin =>
                obtain ⟨B1, hB1, hd1⟩ := ih _ _ _ hbin
                obtain ⟨B2, hB2, hd2⟩ := ih _ _ _ h
                rw [advance_chunk] at hB1
                refine ⟨B1 ++ B2, ?_, fun hf => ?_⟩
                · rw [hB2, hB1, List.append_assoc]
                · have h2 : st2.had_error = false := by
                    rcases hq : st2.had_error with hfq | htq
                    · rfl
                    · rw [pp_he_mono pn f _ _ _ h hq] at hf
                      exact hf
                  have hcd := CodeDelta.appendD (hd1 h2) (hd2 hf)
                  simpa [callD] using hcd
            case h_2 =>
              obtain ⟨B, hB, hd⟩ := ih _ _ _ h
              rw [advance_chunk] at hB
              exact ⟨B, hB, hd⟩
        · have h1 := Option.some.inj h
          subst h1
          exact ⟨[], by simp, fun _ => CodeDelta.nil⟩
    | binC ca =>
      simp only [pp] at h
      split at h
      · exact Option.noConfusion h
      case h_2 prev hprev =>
        split at h
        · exact Option.noConfusion h
        case h_2 st1 hrec =>
          obtain ⟨B1, hB1, hd1⟩ := ih _ _ _ hrec
          split at h
          all_goals
            first
            | exact Option.noConfusion h
            | exact binC_emit_one (by decide) h hB1 hd1
            | exact binC_emit_two (by decide) h hB1 hd1
    | unC ca =>
      simp only [pp] at h
      split at h
      · exact Option.noConfusion h
      case h_2 prev hprev =>
        split at h
        · exact Option.noConfusion h
        case h_2 st1 hrec =>
          obtain ⟨B1, hB1, hd1⟩ := ih _ _ _ hrec
          split at h
          all_goals
            first
            | exact Option.noConfusion h
            | exact unC_emit (by decide) h hB1 hd1
    | grpC ca =>
      simp only [pp] at h
      split at h
      · exact Option.noConfusion h
      case h_2 st1 hrec =>
        have h1 := Option.some.inj h
        subst h1
        obtain ⟨B1, hB1, hd1⟩ := ih _ _ _ hrec
        obtain ⟨hc2, he2⟩ := consumeF_spec .RightParen "Expect ')' after expression." st1
        refine ⟨B1, by rw [hc2, hB1], fun hf => ?_⟩
        have hf1 : st1.had_error = false := by
          rcases hq : st1.had_error with hfq | htq
          · rfl
          · rw [he2 hq] at hf
            exact hf
        simpa [callD] using hd1 hf1
    | varC ca =>
      simp only [pp] at h
      split at h
      · exact Option.noConfusion h
      case h_2 prev hprev =>
        obtain ⟨B, hB, hd⟩ := ih _ _ _ h
        exact ⟨B, hB, fun hf => by simpa [callD] using hd hf⟩
    | nvarC name ca =>
      simp only [pp] at h
      split at h
      · exact Option.noConfusion h
      case h_2 arg st1 hid =>
        obtain ⟨hc1, he1⟩ := identifier_constantF_spec hid
        split at h
        · split at h
          · exact Option.noConfusion h
          case h_2 b st2 hmc =>
            obtain ⟨hmc1, hmc2⟩ := match_currentF_spec hmc
            split at h
            · split at h
              · exact Option.noConfusion h
              case h_2 st3 hexpr =>
                obtain ⟨B2, hB2, hd2⟩ := ih _ _ _ hexpr
                obtain ⟨hc3, he3⟩ := emit_bytesF_spec h
                refine ⟨B2 ++ [11, arg], ?_, fun hf => ?_⟩
                · rw [hc3, hB2, hmc1, hc1, List.append_assoc]
                  simp [Op.u8]
                · have hf3 : st3.had_error = false := by rw [← he3]; exact hf
                  have hcd := CodeDelta.appendD (hd2 hf3) (cd_setG arg)
                  simpa [callD] using hcd
            · obtain ⟨hc3, he3⟩ := emit_bytesF_spec h
              refine ⟨[9, arg], ?_, fun _ => by simpa [callD] using cd_getG arg⟩
              rw [hc3, hmc1, hc1]
              simp [Op.u8]
        · obtain ⟨hc3, he3⟩ := emit_bytesF_spec h
          refine ⟨[9, arg], ?_, fun _ => by simpa [callD] using cd_getG arg⟩
          rw [hc3, hc1]
          simp [Op.u8]


theorem print_statementF_spec {α : Type} {pn : String → Option α} {f : Nat}
    {st st' : PState α} (h : print_statementF pn f st = some st') :
    (st.had_error = true → st'.had_error = true) ∧
    ∃ B, st'.chunk.code = st.chunk.code ++ B ∧
      (st'.had_error = false → CodeDelta B 0) := by
  unfold print_statementF at h
  split at h
  · exact Option.noConfusion h
  case h_2 st1 hpp =>
    obtain ⟨hc2, he2⟩ := emit_byteF_spec h
    obtain ⟨hcc, hcm⟩ := consumeF_spec .Semicolon "Expected ';' after value." st1
    obtain ⟨B1, hB1, hd1⟩ := pp_code pn f _ _ _ hpp
    refine ⟨?_, B1 ++ [21], ?_, fun hf => ?_⟩
    · intro hh
      rw [he2]
      exact hcm (pp_he_mono pn f _ _ _ hpp hh)
    · rw [hc2, hcc, hB1, List.append_assoc]
      simp [Op.u8]
    · have hf1 : st1.had_error = false := by
        rcases hq : st1.had_error with hfq | htq
        · rfl
        · rw [he2, hcm hq] at hf
          exact hf
      have hcd := CodeDelta.appendD (hd1 hf1) (cd_pop (Or.inr rfl))
      simpa [callD] using hcd

theorem expression_statementF_spec {α : Type} {pn : String → Option α}
    {f : Nat} {st st' : PState α}
    (h : expression_statementF pn f st = some st') :
    (st.had_error = true → st'.had_error = true) ∧
    ∃ B, st'.chunk.code = st.chunk.code ++ B ∧
      (st'.had_error = false → CodeDelta B 0) := by
  unfold expression_statementF at h
  split at h
  · exact Option.noConfusion h
  case h_2 st1 hpp =>
    obtain ⟨hc2, he2⟩ := emit_byteF_spec h
    obtain ⟨hcc, hcm⟩ :=
      consumeF_spec .Semicolon "Expected ';' after expression." st1
    obtain ⟨B1, hB1, hd1⟩ := pp_code pn f _ _ _ hpp
    refine ⟨?_, B1 ++ [6], ?_, fun hf => ?_⟩
    · intro hh
      rw [he2]
      exact hcm (pp_he_mono pn f _ _ _ hpp hh)
    · rw [hc2, hcc, hB1, List.append_assoc]
      simp [Op.u8]
    · have hf1 : st1.had_error = false := by
        rcases hq : st1.had_error with hfq | htq
        · rfl
        · rw [he2, hcm hq] at hf
          exact hf
      have hcd := CodeDelta.appendD (hd1 hf1) (cd_pop (Or.inl rfl))
      simpa [callD] using hcd

theorem statementF_spec {α : Type} {pn : String → Option α} {f : Nat}
    {st st' : PState α} (h : statementF pn f st = some st') :
    (st.had_error = true → st'.had_error = true) ∧
    ∃ B, st'.chunk.code = st.chunk.code ++ B ∧
      (st'.had_error = false → CodeDelta B 0) := by
  unfold statementF at h
  split at h
  · exact Option.noConfusion h
  case h_2 st1 hmc =>
    obtain ⟨hc1, hm1⟩ := match_currentF_spec hmc
    obtain ⟨hm2, B, hB, hd⟩ := print_statementF_spec h
    exact ⟨fun hh => hm2 (hm1 hh), B, by rw [hB, hc1], hd⟩
  case h_3 st1 hmc =>
    obtain ⟨hc1, hm1⟩ := match_currentF_spec hmc
    obtain ⟨hm2, B, hB, hd⟩ := expression_statementF_spec h
    exact ⟨fun hh => hm2 (hm1 hh), B, by rw [hB, hc1], hd⟩

theorem parse_variableF_spec {α : Type} {msg : String} {st : PState α}
    {g : Nat} {st1 : PState α} (h : parse_variableF msg st = some (g, st1)) :
    st1.chunk.code = st.chunk.code ∧
    (st.had_error = true → st1.had_error = true) := by
  simp only [parse_variableF] at h
  split at h
  · exact Option.noConfusion h
  case h_2 p hp =>
    obtain ⟨hc1, he1⟩ := identifier_constantF_spec h
    obtain ⟨hcc, hcm⟩ := consumeF_spec .Identifier msg st
    refine ⟨by rw [hc1, hcc], fun hh => by rw [he1]; exact hcm hh⟩

theorem var_declarationF_spec {α : Type} {pn : String → Option α} {f : Nat}
    {st st' : PState α} (h : var_declarationF pn f st = some st') :
    (st.had_error = true → st'.had_error = true) ∧
    ∃ B, st'.chunk.code = st.chunk.code ++ B ∧
      (st'.had_error = false → CodeDelta B 0) := by
  unfold var_declarationF at h
  split at h
  · exact Option.noConfusion h
  case h_2 g st1 hpv =>
    obtain ⟨hc1, hm1⟩ := parse_variableF_spec hpv
    split at h
    · exact Option.noConfusion h
    case h_2 b st2 hmc =>
      obtain ⟨hc2, hm2⟩ := match_currentF_spec hmc
      split at h
      · exact Option.noConfusion h
      case h_2 st3 hinit =>
        obtain ⟨hc4, he4⟩ := emit_bytesF_spec h
        obtain ⟨hcc, hcm⟩ :=
          consumeF_spec .Semicolon "Expect ';' after variable declaration." st3
        have hinit2 : (st2.had_error = true → st3.had_error = true) ∧
            ∃ B1, st3.chunk.code = st2.chunk.code ++ B1 ∧
              (st3.had_error = false → CodeDelta B1 1) := by
          split at hinit
          · obtain ⟨B1, hB1, hd1⟩ := pp_code pn f _ _ _ hinit
            refine ⟨pp_he_mono pn f _ _ _ hinit,
              ⟨B1, hB1, fun hf => by simpa [callD] using hd1 hf⟩⟩
          · obtain ⟨hcb, heb⟩ := emit_byteF_spec hinit
            refine ⟨fun hh => by rw [heb]; exact hh,
              ⟨[3], by simpa [Op.u8] using hcb,
               fun _ => cd_lit (Or.inl rfl)⟩⟩
        obtain ⟨hm3, B1, hB1, hd1⟩ := hinit2
        refine ⟨?_, B1 ++ [10, g], ?_, fun hf => ?_⟩
        · intro hh
          rw [he4]
          exact hcm (hm3 (hm2 (hm1 hh)))
        · rw [hc4, hcc, hB1, hc2, hc1, List.append_assoc]
          simp [Op.u8]
        · have hf3 : st3.had_error = false := by
            rcases hq : st3.had_error with hfq | htq
            · rfl
            · rw [he4, hcm hq] at hf
              exact hf
          have hcd := CodeDelta.appendD (hd1 hf3) (cd_defG g)
          simpa using hcd

theorem declarationF_spec {α : Type} {pn : String → Option α} {f : Nat}
    {st st' : PState α} (h : declarationF pn f st = some st') :
    (st.had_error = true → st'.had_error = true) ∧
    ∃ B, st'.chunk.code = st.chunk.code ++ B ∧
      (st'.had_error = false → CodeDelta B 0) := by
  unfold declarationF at h
  split at h
  · exact Option.noConfusion h
  case h_2 b st1 hmc =>
    obtain ⟨hc1, hm1⟩ := match_currentF_spec hmc
    split at h
    · exact Option.noConfusion h
    case h_2 st2 hst2 =>
      have hbody : (st1.had_error = true → st2.had_error = true) ∧
          ∃ B, st2.chunk.code = st1.chunk.code ++ B ∧
            (st2.had_error = false → CodeDelta B 0) := by
        split at hst2
        · exact var_declarationF_spec hst2
        · exact statementF_spec hst2
      obtain ⟨hm2, B, hB, hd⟩ := hbody
      split at h
      · obtain ⟨hsc, hsm⟩ := synchronizeF_spec h
        refine ⟨fun hh => hsm (hm2 (hm1 hh)), B, ?_, fun hf => ?_⟩
        · rw [hsc, hB, hc1]
        · refine hd ?_
          rcases hq : st2.had_error with hfq | htq
          · rfl
          · rw [hsm hq] at hf
            exact hf
      · have h1 := Option.some.inj h
        subst h1
        exact ⟨fun hh => hm2 (hm1 hh), B, by rw [hB, hc1], hd⟩


theorem compileLoop_spec {α : Type} (pn : String → Option α) :
    ∀ (f : Nat) (st st' : PState α), compileLoop pn f st = some st' →
      (st.had_error = true → st'.had_error = true) ∧
      ∃ B, st'.chunk.code = st.chunk.code ++ B ∧
        (st'.had_error = false → CodeDelta B 0) := by
  intro f
  induction f with
  | zero => intro st st' h; simp [compileLoop] at h
  | succ f ih =>
    intro st st' h
    unfold compileLoop at h
    split at h
    · exact Option.noConfusion h
    case h_2 st1 hmc =>
      obtain ⟨hc1, hm1⟩ := match_currentF_spec hmc
      have h1 := Option.some.inj h
      subst h1
      exact ⟨hm1, [], by simp [hc1], fun _ => CodeDelta.nil⟩
    case h_3 st1 hmc =>
      obtain ⟨hc1, hm1⟩ := match_currentF_spec hmc
      split at h
      · exact Option.noConfusion h
      case h_2 st2 hdecl =>
        obtain ⟨hm2, B1, hB1, hd1⟩ := declarationF_spec hdecl
        obtain ⟨hm3, B2, hB2, hd2⟩ := ih _ _ h
        refine ⟨fun hh => hm3 (hm2 (hm1 hh)), B1 ++ B2, ?_, fun hf => ?_⟩
        · rw [hB2, hB1, hc1, List.append_assoc]
        · have h2 : st2.had_error = false := by
            rcases hq : st2.had_error with hfq | htq
            · rfl
            · rw [hm3 hq] at hf
              exact hf
          simpa using CodeDelta.appendD (hd1 h2) (hd2 hf)

theorem compileF_spec {α : Type} {pn : String → Option α} {f : Nat}
    {st st' : PState α} (h : compileF pn f st = some (st', true)) :
    st'.had_error = false ∧
    ∃ B, st'.chunk.code = (advance st).chunk.code ++ B ++ [0] ∧
      CodeDelta B 0 := by
  unfold compileF at h
  split at h
  · exact Option.noConfusion h
  case h_2 st1 hloop =>
    split at h
    · simp at h
    case isFalse hne =>
      split at h
      · exact Option.noConfusion h
      case h_2 st2 hemit =>
        have h1 := Option.some.inj h
        injection h1 with h2 h3
        subst h2
        obtain ⟨hc2, he2⟩ := emit_byteF_spec hemit
        obtain ⟨hm1, B, hB, hd⟩ := compileLoop_spec pn f _ _ hloop
        have hfe : st1.had_error = false := by
          simpa using hne
        refine ⟨by rw [he2]; exact hfe, B, ?_, hd hfe⟩
        rw [hc2, hB]
        simp [Op.u8]


theorem cd_opcodeBytes {B : List Nat} {d : Int} (h : CodeDelta B d) :
    ∀ (C opsC : List Nat), opcodeBytes C = some opsC →
      ∃ ops, opcodeBytes (B ++ C) = some (ops ++ opsC) ∧ 2 ∉ ops := by
  induction h with
  | nil =>
    intro C opsC hC
    exact ⟨[], by simpa using hC, by simp⟩
  | @constC arg rest d0 h ih =>
    intro C opsC hC
    obtain ⟨ops, hops, hni⟩ := ih C opsC hC
    refine ⟨1 :: ops, ?_, by simp [hni]⟩
    have hr : opcodeBytes ((1 :: arg :: rest) ++ C)
        = (opcodeBytes (rest ++ C)).map (fun os => 1 :: os) := rfl
    rw [hr, hops]
    rfl
  | @getG arg rest d0 h ih =>
    intro C opsC hC
    obtain ⟨ops, hops, hni⟩ := ih C opsC hC
    refine ⟨9 :: ops, ?_, by simp [hni]⟩
    have hr : opcodeBytes ((9 :: arg :: rest) ++ C)
        = (opcodeBytes (rest ++ C)).map (fun os => 9 :: os) := rfl
    rw [hr, hops]
    rfl
  | @setG arg rest d0 h ih =>
    intro C opsC hC
    obtain ⟨ops, hops, hni⟩ := ih C opsC hC
    refine ⟨11 :: ops, ?_, by simp [hni]⟩
    have hr : opcodeBytes ((11 :: arg :: rest) ++ C)
        = (opcodeBytes (rest ++ C)).map (fun os => 11 :: os) := rfl
    rw [hr, hops]
    rfl
  | @defG arg rest d0 h ih =>
    intro C opsC hC
    obtain ⟨ops, hops, hni⟩ := ih C opsC hC
    refine ⟨10 :: ops, ?_, by simp [hni]⟩
    have hr : opcodeBytes ((10 :: arg :: rest) ++ C)
        = (opcodeBytes (rest ++ C)).map (fun os => 10 :: os) := rfl
    rw [hr, hops]
    rfl
  | @lit b0 hb rest d0 h ih =>
    intro C opsC hC
    obtain ⟨ops, hops, hni⟩ := ih C opsC hC
    rcases hb with rfl | rfl | rfl
    · refine ⟨3 :: ops, ?_, by simp [hni]⟩
      have hr : opcodeBytes ((3 :: rest) ++ C)
          = (opcodeBytes (rest ++ C)).map (fun os => 3 :: os) := rfl
      rw [hr, hops]
      rfl
    · refine ⟨4 :: ops, ?_, by simp [hni]⟩
      have hr : opcodeBytes ((4 :: rest) ++ C)
          = (opcodeBytes (rest ++ C)).map (fun os => 4 :: os) := rfl
      rw [hr, hops]
      rfl
    · refine ⟨5 :: ops, ?_, by simp [hni]⟩
      have hr : opcodeBytes ((5 :: rest) ++ C)
          = (opcodeBytes (rest ++ C)).map (fun os => 5 :: os) := rfl
      rw [hr, hops]
      rfl
  | @unop b0 hb rest d0 h ih =>
    intro C opsC hC
    obtain ⟨ops, hops, hni⟩ := ih C opsC hC
    rcases hb with rfl | rfl
    · refine ⟨19 :: ops, ?_, by simp [hni]⟩
      have hr : opcodeBytes ((19 :: rest) ++ C)
          = (opcodeBytes (rest ++ C)).map (fun os => 19 :: os) := rfl
      rw [hr, hops]
      rfl
    · refine ⟨20 :: ops, ?_, by simp [hni]⟩
      have hr : opcodeBytes ((20 :: rest) ++ C)
          = (opcodeBytes (rest ++ C)).map (fun os => 20 :: os) := rfl
      rw [hr, hops]
      rfl
  | @binop b0 hb rest d0 h ih =>
    intro C opsC hC
    obtain ⟨ops, hops, hni⟩ := ih C opsC hC
    rcases hb with rfl | rfl | rfl | rfl | rfl | rfl | rfl
    · refine ⟨12 :: ops, ?_, by simp [hni]⟩
      have hr : opcodeBytes ((12 :: rest) ++ C)
          = (opcodeBytes (rest ++ C)).map (fun os => 12 :: os) := rfl
      rw [hr, hops]
      rfl
    · refine ⟨13 :: ops, ?_, by simp [hni]⟩
      have hr : opcodeBytes ((13 :: rest) ++ C)
          = (opcodeBytes (rest ++ C)).map (fun os => 13 :: os) := rfl
      rw [hr, hops]
      rfl
    · refine ⟨14 :: ops, ?_, by simp [hni]⟩
      have hr : opcodeBytes ((14 :: rest) ++ C)
          = (opcodeBytes (rest ++ C)).map (fun os => 14 :: os) := rfl
      rw [hr, hops]
      rfl
    · refine ⟨15 :: ops, ?_, by simp [hni]⟩
      have hr : opcodeBytes ((15 :: rest) ++ C)
          = (opcodeBytes (rest ++ C)).map (fun os => 15 :: os) := rfl
      rw [hr, hops]
      rfl
    · refine ⟨16 :: ops, ?_, by simp [hni]⟩
      have hr : opcodeBytes ((16 :: rest) ++ C)
          = (opcodeBytes (rest ++ C)).map (fun os => 16 :: os) := rfl
      rw [hr, hops]
      rfl
    · refine ⟨17 :: ops, ?_, by simp [hni]⟩
      have hr : opcodeBytes ((17 :: rest) ++ C)
          = (opcodeBytes (rest ++ C)).map (fun os => 17 :: os) := rfl
      rw [hr, hops]
      rfl
    · refine ⟨18 :: ops, ?_, by simp [hni]⟩
      have hr : opcodeBytes ((18 :: rest) ++ C)
          = (opcodeBytes (rest ++ C)).map (fun os => 18 :: os) := rfl
      rw [hr, hops]
      rfl
  | @popP b0 hb rest d0 h ih =>
    intro C opsC hC
    obtain ⟨ops, hops, hni⟩ := ih C opsC hC
    rcases hb with rfl | rfl
    · refine ⟨6 :: ops, ?_, by simp [hni]⟩
      have hr : opcodeBytes ((6 :: rest) ++ C)
          = (opcodeBytes (rest ++ C)).map (fun os => 6 :: os) := rfl
      rw [hr, hops]
      rfl
    · refine ⟨21 :: ops, ?_, by simp [hni]⟩
      have hr : opcodeBytes ((21 :: rest) ++ C)
          = (opcodeBytes (rest ++ C)).map (fun os => 21 :: os) := rfl
      rw [hr, hops]
      rfl

/-- C8: a statement the compiler accepts (a print statement, an expression
statement, or a variable declaration — everything `Parser::declaration`
parses) compiles to an instruction sequence whose complete, error-free
execution leaves the VM's operand-stack depth exactly as it found it. -/
theorem C8_statement_stack_neutral {α : Type} (pn : String → Option α)
    (N : NumOps α) (f : Nat) (ps ps' : PState α) (B : List Nat)
    (consts : List (Value α)) (lns : List Nat) (intr : Interner)
    (glob : List (String × Value α)) (s : List (Value α)) (fv : Nat)
    (vst' : VmState α)
    (hdecl : declarationF pn f ps = some ps')
    (herr : ps'.had_error = false)
    (hB : ps'.chunk.code = ps.chunk.code ++ B)
    (hrun : go N fv ⟨B, consts, lns, 0, s, intr, glob, []⟩
      = (vst', RunRes.ok)) :
    vst'.stack.length = s.length := by
  obtain ⟨hmono, B0, hB0, hdelta⟩ := declarationF_spec hdecl
  have hBB : B0 = B := by
    rw [hB0] at hB
    exact List.append_cancel_left hB
  have hcd : CodeDelta B 0 := hBB ▸ hdelta herr
  have hlen := go_delta N hcd fv []
    ⟨B, consts, lns, 0, s, intr, glob, []⟩ vst' (by simp) rfl hrun
  simp at hlen
  omega

/-- Witness for C8 at the statement `print 1;`: the parser accepts it
emitting `[Constant 0, Print]`, running those bytes from the empty stack
ends with the empty stack. -/
theorem C8_witness :
    declarationF pnInt 10 (advance (initPS Int
        [⟨.Print, "print", 1⟩, ⟨.Number, "1", 1⟩, ⟨.Semicolon, ";", 1⟩]))
      = some ⟨[], some eofToken, some ⟨.Semicolon, ";", 1⟩,
          ⟨[1, 0, 21], [Value.Number 1], [1, 1, 1]⟩, ⟨[], []⟩,
          false, false, []⟩ ∧
    go intOps 4 ⟨[1, 0, 21], [Value.Number 1], [1, 1, 1], 0, [],
        ⟨[], []⟩, [], []⟩
      = (⟨[1, 0, 21], [Value.Number 1], [1, 1, 1], 3, [],
          ⟨[], []⟩, [], ["1"]⟩, RunRes.ok) ∧
    (⟨[1, 0, 21], [Value.Number 1], [1, 1, 1], 3, [],
        ⟨[], []⟩, [], ["1"]⟩ : VmState Int).stack.length
      = ([] : List (Value Int)).length := by
  refine ⟨by decide, by decide, ?_⟩
  exact C8_statement_stack_neutral pnInt intOps 10
    (advance (initPS Int
      [⟨.Print, "print", 1⟩, ⟨.Number, "1", 1⟩, ⟨.Semicolon, ";", 1⟩]))
    ⟨[], some eofToken, some ⟨.Semicolon, ";", 1⟩,
      ⟨[1, 0, 21], [Value.Number 1], [1, 1, 1]⟩, ⟨[], []⟩, false, false, []⟩
    [1, 0, 21] [Value.Number 1] [1, 1, 1] ⟨[], []⟩ [] [] 4
    ⟨[1, 0, 21], [Value.Number 1], [1, 1, 1], 3, [], ⟨[], []⟩, [], ["1"]⟩
    (by decide) (by decide) (by decide) (by decide)

/-- C10: bytecode produced by a successful `Parser::compile` never contains
the `ConstantLong` opcode (byte 2) at any instruction position — every
constant load uses the one-byte `Op::Constant` form — and `make_constant`
panics (returns `none`) exactly when the pool index would exceed 255,
because the compiler never calls `Chunk::write_constant`. -/
theorem C10_compiler_never_emits_constantlong {α : Type}
    (pn : String → Option α) (f : Nat) (toks : List Token) (st' : PState α)
    (hc : compileF pn f (initPS α toks) = some (st', true)) :
    ((opcodeBytes st'.chunk.code).isSome = true ∧
      ∀ ops, opcodeBytes st'.chunk.code = some ops → 2 ∉ ops) ∧
    (∀ (stx : PState α) (v : Value α),
      make_constantF stx v = none ↔ 256 ≤ stx.chunk.constants.length) := by
  obtain ⟨herr, B, hB, hcd⟩ := compileF_spec hc
  have hadv : (advance (initPS α toks)).chunk.code = [] := by
    rw [advance_chunk]
    rfl
  rw [hadv] at hB
  simp only [List.nil_append] at hB
  obtain ⟨ops, hops, hni⟩ := cd_opcodeBytes hcd [0] [0] (by decide)
  constructor
  · constructor
    · rw [hB, hops]
      rfl
    · intro ops2 hops2
      rw [hB, hops] at hops2
      have hh : ops ++ [0] = ops2 := by simpa using hops2
      subst hh
      simp [hni]
  · intro stx v
    simp only [make_constantF]
    split
    case isTrue hle =>
      simp only [Chunk.add_constant] at hle
      simp
      omega
    case isFalse hgt =>
      simp only [Chunk.add_constant] at hgt
      simp
      omega

set_option maxRecDepth 8000 in
/-- Witness for C10: compiling `print 1;` succeeds, its bytecode decodes
with no `ConstantLong`, and `make_constant` on a 256-entry pool panics. -/
theorem C10_witness :
    compileF pnInt 20 (initPS Int
        [⟨.Print, "print", 1⟩, ⟨.Number, "1", 1⟩, ⟨.Semicolon, ";", 1⟩])
      = some (⟨[], some eofToken, some eofToken,
          ⟨[1, 0, 21, 0], [Value.Number 1], [1, 1, 1, 0]⟩, ⟨[], []⟩,
          false, false, []⟩, true) ∧
    (opcodeBytes (⟨[], some eofToken, some eofToken,
        ⟨[1, 0, 21, 0], [Value.Number 1], [1, 1, 1, 0]⟩, ⟨[], []⟩,
        false, false, []⟩ : PState Int).chunk.code).isSome = true ∧
    make_constantF (⟨[], none, none,
        ⟨[], List.replicate 256 (Value.Number 0), []⟩, ⟨[], []⟩,
        false, false, []⟩ : PState Int) (Value.Number 0) = none := by
  have hc : compileF pnInt 20 (initPS Int
      [⟨.Print, "print", 1⟩, ⟨.Number, "1", 1⟩, ⟨.Semicolon, ";", 1⟩])
      = some (⟨[], some eofToken, some eofToken,
          ⟨[1, 0, 21, 0], [Value.Number 1], [1, 1, 1, 0]⟩, ⟨[], []⟩,
          false, false, []⟩, true) := by decide
  have h := C10_compiler_never_emits_constantlong pnInt 20 _ _ hc
  refine ⟨hc, h.1.1, ?_⟩
  exact (h.2 _ (Value.Number 0)).mpr (by simp [List.length_replicate])

end Alox
